import Mathlib

/-
Verification of the TrendRadar notification subsystem
(trendradar/notification/splitter.py and trendradar/notification/renderer.py).

Strings are modelled as lists of Unicode code points (`Str`); the byte budget
checks of the Python code (`len(s.encode("utf-8"))`) are modelled by `utf8Len`,
which sums the UTF-8 encoded size of each code point.  The injectable clock
(`get_time_func`, whose result is only ever observed through
`strftime("%Y-%m-%d %H:%M:%S")`) is modelled by the formatted timestamp string
it produces (`nowStr`).  The external title formatter
`format_title_for_platform` (trendradar/report/formatter.py, an external
collaborator per the specification, not part of the sources under
verification) is modelled as an arbitrary function parameter `fmtTitle`;
all theorems hold for every such formatter.

The splitter is embedded with ghost instrumentation: the current batch and the
emitted batches are kept as lists of `Chunk`s, where a chunk records which
syntactic unit of the message it is (base header, section header, word-group
header, a numbered item line, a separator, ...).  Rendering a chunk list and
appending the footer yields exactly the string the Python code builds, and
`split_content_into_batches` returns those strings.  Each emitted batch also
carries a ghost flag `ok`: it is `true` exactly when the last size-changing
write into the batch was either a successful trial append (which re-measures
the whole batch against the budget) or the seeding of a fresh batch whose
seed fits within the budget together with the footer.
-/

set_option maxHeartbeats 1000000
set_option maxRecDepth 4000

abbrev Str := List Char

def S (s : String) : Str := s.data

/-- UTF-8 encoded size of one code point (Python `len(chr(c).encode("utf-8"))`). -/
def charSize (ch : Char) : Nat :=
  if ch.toNat ≤ 127 then 1
  else if ch.toNat ≤ 2047 then 2
  else if ch.toNat ≤ 65535 then 3
  else 4

/-- Python `len(s.encode("utf-8"))`. -/
def utf8Len (s : Str) : Nat := (s.map charSize).sum

def natStr (n : Nat) : Str := (Nat.repr n).data

/-- One news item record (the fields of the Python title dict that this
subsystem reads or writes). -/
structure TitleItem where
  title : Str
  source : Str
  is_new : Bool
deriving DecidableEq, Inhabited, Repr

/-- One entry of `report_data["stats"]`. -/
structure StatGroup where
  word : Str
  count : Nat
  titles : List TitleItem
deriving DecidableEq, Inhabited, Repr

/-- One entry of `report_data["new_titles"]`. -/
structure SourceGroup where
  source_name : Str
  titles : List TitleItem
deriving DecidableEq, Inhabited, Repr

/-- The `report_data` dict. -/
structure ReportData where
  stats : List StatGroup
  new_titles : List SourceGroup
  failed_ids : List Str
  total_new_count : Nat
deriving DecidableEq, Inhabited, Repr

structure UpdateInfo where
  remote_version : Str
  current_version : Str
deriving DecidableEq, Inhabited, Repr

/-- splitter.py lines 15-20. -/
def DEFAULT_BATCH_SIZES : List (Str × Nat) :=
  [(S "dingtalk", 20000), (S "feishu", 29000), (S "ntfy", 3800), (S "default", 4000)]

/-- splitter.py lines 54-65: merge `batch_sizes` over the defaults and resolve
the effective byte budget when `max_bytes` is not supplied. -/
def resolveMaxBytes (format_type : Str) (max_bytes : Option Nat)
    (batch_sizes : Option (List (Str × Nat))) : Nat :=
  match max_bytes with
  | some m => m
  | none =>
    let get := fun (k : Str) (d : Nat) =>
      match (batch_sizes.getD []).lookup k with
      | some v => v
      | none => ((DEFAULT_BATCH_SIZES).lookup k).getD d
    if format_type = S "dingtalk" then get (S "dingtalk") 20000
    else if format_type = S "feishu" then get (S "feishu") 29000
    else if format_type = S "ntfy" then get (S "ntfy") 3800
    else get (S "default") 4000

/-- splitter.py lines 76-87 (identical loop in renderer.py lines 73-84 and
270-282): truncate the stats groups against the remaining global item budget,
dropping groups emptied by truncation and stopping once the budget is
exhausted.  Returns the updated running count and the retained groups. -/
def truncateStats (maxT : Nat) : Nat → List StatGroup → Nat × List StatGroup
  | cnt, [] => (cnt, [])
  | cnt, g :: rest =>
    if maxT ≤ cnt then (cnt, [])
    else
      let tt := g.titles.take (maxT - cnt)
      if tt = [] then truncateStats maxT cnt rest
      else
        let p := truncateStats maxT (cnt + tt.length) rest
        (p.1, { word := g.word, count := tt.length, titles := tt } :: p.2)

/-- splitter.py lines 91-101 (identical loop in renderer.py lines 88-98 and
286-296): truncate the source groups against the remaining global budget. -/
def truncateSources (maxT : Nat) : Nat → List SourceGroup → Nat × List SourceGroup
  | cnt, [] => (cnt, [])
  | cnt, sg :: rest =>
    if maxT ≤ cnt then (cnt, [])
    else
      let tt := sg.titles.take (maxT - cnt)
      if tt = [] then truncateSources maxT cnt rest
      else
        let p := truncateSources maxT (cnt + tt.length) rest
        (p.1, { source_name := sg.source_name, titles := tt } :: p.2)

/-- splitter.py lines 67-108: the splitter's pre-processing of the report.
When `max_total_news_in_push > 0` the global truncation walk runs (stats only
when `show_stats_in_push`); otherwise stats are cleared when
`show_stats_in_push` is false.  The splitter never flattens stats into a
synthetic source group.  Returns (truncated stats, truncated new_titles). -/
def preprocessSplit (r : ReportData) (max_total_news_in_push : Nat)
    (show_stats_in_push : Bool) : List StatGroup × List SourceGroup :=
  if 0 < max_total_news_in_push then
    let p := if show_stats_in_push then truncateStats max_total_news_in_push 0 r.stats
             else (0, [])
    let q := truncateSources max_total_news_in_push p.1 r.new_titles
    (p.2, q.2)
  else
    (if show_stats_in_push then r.stats else [], r.new_titles)

/-- The synthetic source name used by the renderers when flattening
(renderer.py line 55 and line 253). -/
def flattenedSentinel : Str := S "匹配的新闻"

/-- renderer.py lines 46-68 (render_feishu_content) and lines 244-266
(render_dingtalk_content, identical): when statistics display is suppressed
and stats are non-empty, flatten all statistic items into a single synthetic
source group prepended to `new_titles`, and recompute the displayed total.
Returns (all_new_titles, original_total_new_count). -/
def rendererAllNewTitles (r : ReportData) (show_stats_in_push : Bool) :
    List SourceGroup × Nat :=
  if show_stats_in_push = false ∧ r.stats ≠ [] then
    let all_titles := (r.stats.map (fun g => g.titles)).flatten
    let flattened : List SourceGroup :=
      [{ source_name := flattenedSentinel, titles := all_titles }]
    (flattened ++ r.new_titles, all_titles.length + r.total_new_count)
  else (r.new_titles, r.total_new_count)

/-- renderer.py lines 40-102 (and identically lines 237-300): the renderers'
pre-processing — flattening followed by the global truncation walk.
Returns (truncated stats, truncated new_titles). -/
def preprocessRenderer (r : ReportData) (max_total_news_in_push : Nat)
    (show_stats_in_push : Bool) : List StatGroup × List SourceGroup :=
  let all_new := (rendererAllNewTitles r show_stats_in_push).1
  if 0 < max_total_news_in_push then
    let p := if show_stats_in_push then truncateStats max_total_news_in_push 0 r.stats
             else (0, [])
    let q := truncateSources max_total_news_in_push p.1 all_new
    (p.2, q.2)
  else
    (if show_stats_in_push then r.stats else [], all_new)

/-- splitter.py lines 117-132: the per-platform base header. -/
def baseHeaderStr (format_type : Str) (total_titles : Nat) (nowStr : Str) : Str :=
  if format_type = S "wework" ∨ format_type = S "bark" then
    S "**总新闻数：** " ++ natStr total_titles ++ S "\n\n\n\n"
  else if format_type = S "telegram" then
    S "总新闻数： " ++ natStr total_titles ++ S "\n\n"
  else if format_type = S "ntfy" then
    S "**总新闻数：** " ++ natStr total_titles ++ S "\n\n"
  else if format_type = S "feishu" then
    []
  else if format_type = S "dingtalk" then
    S "**总新闻数：** " ++ natStr total_titles ++ S "\n\n" ++
    S "**时间：** " ++ nowStr ++ S "\n\n" ++
    S "**类型：** 热点分析报告\n\n" ++
    S "---\n\n"
  else if format_type = S "slack" then
    S "*总新闻数：* " ++ natStr total_titles ++ S "\n\n"
  else []

/-- splitter.py lines 134-158: the per-platform base footer, including the
optional update notice. -/
def baseFooterStr (format_type : Str) (nowStr : Str) (update_info : Option UpdateInfo) : Str :=
  if format_type = S "wework" ∨ format_type = S "bark" then
    S "\n\n\n> 更新时间：" ++ nowStr ++
    (match update_info with
     | some u => S "\n> TrendRadar 发现新版本 **" ++ u.remote_version ++
                 S "**，当前 **" ++ u.current_version ++ S "**"
     | none => [])
  else if format_type = S "telegram" then
    S "\n\n更新时间：" ++ nowStr ++
    (match update_info with
     | some u => S "\nTrendRadar 发现新版本 " ++ u.remote_version ++
                 S "，当前 " ++ u.current_version
     | none => [])
  else if format_type = S "ntfy" then
    S "\n\n> 更新时间：" ++ nowStr ++
    (match update_info with
     | some u => S "\n> TrendRadar 发现新版本 **" ++ u.remote_version ++
                 S "**，当前 **" ++ u.current_version ++ S "**"
     | none => [])
  else if format_type = S "feishu" then
    S "\n\n<font color=\x27grey\x27>更新时间：" ++ nowStr ++ S "</font>" ++
    (match update_info with
     | some u => S "\n<font color=\x27grey\x27>TrendRadar 发现新版本 " ++ u.remote_version ++
                 S "，当前 " ++ u.current_version ++ S "</font>"
     | none => [])
  else if format_type = S "dingtalk" then
    S "\n\n> 更新时间：" ++ nowStr ++
    (match update_info with
     | some u => S "\n> TrendRadar 发现新版本 **" ++ u.remote_version ++
                 S "**，当前 **" ++ u.current_version ++ S "**"
     | none => [])
  else if format_type = S "slack" then
    S "\n\n_更新时间：" ++ nowStr ++ S "_" ++
    (match update_info with
     | some u => S "\n_TrendRadar 发现新版本 *" ++ u.remote_version ++
                 S "*，当前 *" ++ u.current_version ++ S "_"
     | none => [])
  else []

/-- splitter.py lines 160-173: the statistics section header (only used when
the truncated stats are non-empty). -/
def statsHeaderStr (format_type : Str) : Str :=
  if format_type = S "wework" ∨ format_type = S "bark" then S "📊 **热点词汇统计**\n\n"
  else if format_type = S "telegram" then S "📊 热点词汇统计\n\n"
  else if format_type = S "ntfy" then S "📊 **热点词汇统计**\n\n"
  else if format_type = S "feishu" then S "📊 **热点词汇统计**\n\n"
  else if format_type = S "dingtalk" then S "📊 **热点词汇统计**\n\n"
  else if format_type = S "slack" then S "📊 *热点词汇统计*\n\n"
  else []

/-- splitter.py lines 220-281: the word-group header, with the count-tiered
icon and per-platform markup. -/
def wordHeaderStr (format_type : Str) (i total : Nat) (word : Str) (count : Nat) : Str :=
  let seq := S "[" ++ natStr (i + 1) ++ S "/" ++ natStr total ++ S "]"
  if format_type = S "wework" ∨ format_type = S "bark" then
    if 10 ≤ count then S "🔥 " ++ seq ++ S " **" ++ word ++ S "** : **" ++ natStr count ++ S "** 条\n\n"
    else if 5 ≤ count then S "📈 " ++ seq ++ S " **" ++ word ++ S "** : **" ++ natStr count ++ S "** 条\n\n"
    else S "📌 " ++ seq ++ S " **" ++ word ++ S "** : " ++ natStr count ++ S " 条\n\n"
  else if format_type = S "telegram" then
    if 10 ≤ count then S "🔥 " ++ seq ++ S " " ++ word ++ S " : " ++ natStr count ++ S " 条\n\n"
    else if 5 ≤ count then S "📈 " ++ seq ++ S " " ++ word ++ S " : " ++ natStr count ++ S " 条\n\n"
    else S "📌 " ++ seq ++ S " " ++ word ++ S " : " ++ natStr count ++ S " 条\n\n"
  else if format_type = S "ntfy" then
    if 10 ≤ count then S "🔥 " ++ seq ++ S " **" ++ word ++ S "** : **" ++ natStr count ++ S "** 条\n\n"
    else if 5 ≤ count then S "📈 " ++ seq ++ S " **" ++ word ++ S "** : **" ++ natStr count ++ S "** 条\n\n"
    else S "📌 " ++ seq ++ S " **" ++ word ++ S "** : " ++ natStr count ++ S " 条\n\n"
  else if format_type = S "feishu" then
    if 10 ≤ count then
      S "🔥 <font color=\x27grey\x27>" ++ seq ++ S "</font> **" ++ word ++
      S "** : <font color=\x27red\x27>" ++ natStr count ++ S "</font> 条\n\n"
    else if 5 ≤ count then
      S "📈 <font color=\x27grey\x27>" ++ seq ++ S "</font> **" ++ word ++
      S "** : <font color=\x27orange\x27>" ++ natStr count ++ S "</font> 条\n\n"
    else
      S "📌 <font color=\x27grey\x27>" ++ seq ++ S "</font> **" ++ word ++
      S "** : " ++ natStr count ++ S " 条\n\n"
  else if format_type = S "dingtalk" then
    if 10 ≤ count then S "🔥 " ++ seq ++ S " **" ++ word ++ S "** : **" ++ natStr count ++ S "** 条\n\n"
    else if 5 ≤ count then S "📈 " ++ seq ++ S " **" ++ word ++ S "** : **" ++ natStr count ++ S "** 条\n\n"
    else S "📌 " ++ seq ++ S " **" ++ word ++ S "** : " ++ natStr count ++ S " 条\n\n"
  else if format_type = S "slack" then
    if 10 ≤ count then S "🔥 " ++ seq ++ S " *" ++ word ++ S "* : *" ++ natStr count ++ S "* 条\n\n"
    else if 5 ≤ count then S "📈 " ++ seq ++ S " *" ++ word ++ S "* : *" ++ natStr count ++ S "* 条\n\n"
    else S "📌 " ++ seq ++ S " *" ++ word ++ S "* : " ++ natStr count ++ S " 条\n\n"
  else []

/-- splitter.py lines 287-312 and 340-365: which platform string the stats
section hands to `format_title_for_platform`; `none` means the raw title is
used. -/
def statPlatform (format_type : Str) : Option Str :=
  if format_type = S "wework" ∨ format_type = S "bark" then some (S "wework")
  else if format_type = S "telegram" then some (S "telegram")
  else if format_type = S "ntfy" then some (S "ntfy")
  else if format_type = S "feishu" then some (S "feishu")
  else if format_type = S "dingtalk" then some (S "dingtalk")
  else if format_type = S "slack" then some (S "slack")
  else none

/-- A statistics-section item line, splitter.py lines 284-316 (first item) and
338-369 (subsequent items): numbered line plus a blank line except after the
group's last item. -/
def statNewsLine (fmtTitle : Str → TitleItem → Bool → Str) (format_type : Str)
    (j L : Nat) (it : TitleItem) : Str :=
  let formatted :=
    match statPlatform format_type with
    | some p => fmtTitle p it true
    | none => it.title
  S "  " ++ natStr (j + 1) ++ S ". " ++ formatted ++ S "\n" ++
  (if j + 1 < L then S "\n" else [])

/-- splitter.py lines 384-398: the separator between consecutive word-groups. -/
def separatorStr (format_type : Str) (feishu_separator : Str) : Str :=
  if format_type = S "wework" ∨ format_type = S "bark" then S "\n\n\n\n"
  else if format_type = S "telegram" then S "\n\n"
  else if format_type = S "ntfy" then S "\n\n"
  else if format_type = S "feishu" then S "\n" ++ feishu_separator ++ S "\n\n"
  else if format_type = S "dingtalk" then S "\n---\n\n"
  else if format_type = S "slack" then S "\n\n"
  else []

/-- splitter.py lines 419-433: the new-items section header. -/
def newHeaderStr (format_type : Str) (total_new_count : Nat) (hint : Str)
    (feishu_separator : Str) : Str :=
  if format_type = S "wework" ∨ format_type = S "bark" then
    S "\n\n\n\n🆕 **本次新增热点新闻** (共 " ++ natStr total_new_count ++ S " 条" ++ hint ++ S ")\n\n"
  else if format_type = S "telegram" then
    S "\n\n🆕 本次新增热点新闻 (共 " ++ natStr total_new_count ++ S " 条" ++ hint ++ S ")\n\n"
  else if format_type = S "ntfy" then
    S "\n\n🆕 **本次新增热点新闻** (共 " ++ natStr total_new_count ++ S " 条" ++ hint ++ S ")\n\n"
  else if format_type = S "feishu" then
    S "\n" ++ feishu_separator ++ S "\n\n🆕 **本次新增热点新闻** (共 " ++
    natStr total_new_count ++ S " 条" ++ hint ++ S ")\n\n"
  else if format_type = S "dingtalk" then
    S "\n---\n\n🆕 **本次新增热点新闻** (共 " ++ natStr total_new_count ++ S " 条" ++ hint ++ S ")\n\n"
  else if format_type = S "slack" then
    S "\n\n🆕 *本次新增热点新闻* (共 " ++ natStr total_new_count ++ S " 条" ++ hint ++ S ")\n\n"
  else []

/-- splitter.py lines 450-462: a news-source-group header. -/
def srcHeaderStr (format_type : Str) (source_name : Str) (L : Nat) : Str :=
  if format_type = S "wework" ∨ format_type = S "bark" then
    S "**" ++ source_name ++ S "** (" ++ natStr L ++ S " 条):\n\n"
  else if format_type = S "telegram" then
    source_name ++ S " (" ++ natStr L ++ S " 条):\n\n"
  else if format_type = S "ntfy" then
    S "**" ++ source_name ++ S "** (" ++ natStr L ++ S " 条):\n\n"
  else if format_type = S "feishu" then
    S "**" ++ source_name ++ S "** (" ++ natStr L ++ S " 条):\n\n"
  else if format_type = S "dingtalk" then
    S "**" ++ source_name ++ S "** (" ++ natStr L ++ S " 条):\n\n"
  else if format_type = S "slack" then
    S "*" ++ source_name ++ S "* (" ++ natStr L ++ S " 条):\n\n"
  else []

/-- splitter.py lines 471-492: which platform string the new-items section
hands to the formatter for a group's FIRST item; `none` means the raw title.
There is no `ntfy` branch here, and `bark` is routed to the `wework`
formatter. -/
def newFirstPlatform (format_type : Str) : Option Str :=
  if format_type = S "wework" ∨ format_type = S "bark" then some (S "wework")
  else if format_type = S "telegram" then some (S "telegram")
  else if format_type = S "feishu" then some (S "feishu")
  else if format_type = S "dingtalk" then some (S "dingtalk")
  else if format_type = S "slack" then some (S "slack")
  else none

/-- splitter.py lines 520-541: the formatter platform for the new-items
section's SUBSEQUENT items; note `bark` is absent (only plain `wework`), so
bark falls through to the raw title. -/
def newRestPlatform (format_type : Str) : Option Str :=
  if format_type = S "wework" then some (S "wework")
  else if format_type = S "telegram" then some (S "telegram")
  else if format_type = S "feishu" then some (S "feishu")
  else if format_type = S "dingtalk" then some (S "dingtalk")
  else if format_type = S "slack" then some (S "slack")
  else none

/-- splitter.py lines 466-494 and 515-543: a new-items section line; the item
is defensively copied and its `is_new` flag cleared before formatting. -/
def newNewsLine (fmtTitle : Str → TitleItem → Bool → Str) (format_type : Str)
    (j : Nat) (it : TitleItem) : Str :=
  let copy := { it with is_new := false }
  let formatted :=
    match (if j = 0 then newFirstPlatform format_type else newRestPlatform format_type) with
    | some p => fmtTitle p copy false
    | none => copy.title
  S "  " ++ natStr (j + 1) ++ S ". " ++ formatted ++ S "\n"

/-- splitter.py lines 580-591: the failed-sources section header; note there
is no branch for `slack` or `bark`, so those formats get the empty string. -/
def failedHeaderStr (format_type : Str) (feishu_separator : Str) : Str :=
  if format_type = S "wework" then S "\n\n\n\n⚠️ **数据获取失败的平台：**\n\n"
  else if format_type = S "telegram" then S "\n\n⚠️ 数据获取失败的平台：\n\n"
  else if format_type = S "ntfy" then S "\n\n⚠️ **数据获取失败的平台：**\n\n"
  else if format_type = S "feishu" then
    S "\n" ++ feishu_separator ++ S "\n\n⚠️ **数据获取失败的平台：**\n\n"
  else if format_type = S "dingtalk" then S "\n---\n\n⚠️ **数据获取失败的平台：**\n\n"
  else []

/-- splitter.py lines 606-612: one failed-source bullet line. -/
def failedLineStr (format_type : Str) (id : Str) : Str :=
  if format_type = S "feishu" then S "  • <font color=\x27red\x27>" ++ id ++ S "</font>\n"
  else if format_type = S "dingtalk" then S "  • **" ++ id ++ S "**\n"
  else S "  • " ++ id ++ S "\n"

/-- splitter.py lines 183-189: the degenerate "no matches" content. -/
def noMatchContent (mode : Str) : Str :=
  let mode_text :=
    if mode = S "incremental" then S "增量模式下暂无新增匹配的热点词汇"
    else if mode = S "current" then S "当前榜单模式下暂无匹配的热点词汇"
    else S "暂无匹配的热点词汇"
  S "📭 " ++ mode_text ++ S "\n\n"

/-- Ghost chunk labels: each chunk is one syntactic unit the splitter appends
to the current batch.  `wordHead`/`srcHead` and the item chunks additionally
carry the group index so that atomic pairing is expressible; the carried data
determines the rendered text. -/
inductive Chunk where
  | base : Chunk
  | statsHead : Chunk
  | newHead : Chunk
  | failedHead : Chunk
  | wordHead (i total : Nat) (g : StatGroup) : Chunk
  | statItem (i j L : Nat) (it : TitleItem) : Chunk
  | srcHead (i : Nat) (sg : SourceGroup) : Chunk
  | newItem (i j : Nat) (it : TitleItem) : Chunk
  | sep : Chunk
  | nl : Chunk
  | failedLine (id : Str) : Chunk
  | noMatch : Chunk
deriving DecidableEq, Repr

/-- The per-invocation context: the effective budget, the strings the splitter
computes once up front (splitter.py lines 112-173, 416-433, 580-591), the
format, and the external formatter. -/
structure Ctx where
  format_type : Str
  fmtTitle : Str → TitleItem → Bool → Str
  maxBytes : Nat
  baseHeader : Str
  footer : Str
  statsHeader : Str
  newHeader : Str
  failedHeader : Str
  sepStr : Str
  noMatchStr : Str

/-- Rendering of a chunk to the string the Python code appends. -/
def renderChunk (c : Ctx) : Chunk → Str
  | Chunk.base => c.baseHeader
  | Chunk.statsHead => c.statsHeader
  | Chunk.newHead => c.newHeader
  | Chunk.failedHead => c.failedHeader
  | Chunk.wordHead i total g => wordHeaderStr c.format_type i total g.word g.count
  | Chunk.statItem _ j L it => statNewsLine c.fmtTitle c.format_type j L it
  | Chunk.srcHead _ sg => srcHeaderStr c.format_type sg.source_name sg.titles.length
  | Chunk.newItem _ j it => newNewsLine c.fmtTitle c.format_type j it
  | Chunk.sep => c.sepStr
  | Chunk.nl => S "\n"
  | Chunk.failedLine id => failedLineStr c.format_type id
  | Chunk.noMatch => c.noMatchStr

def joinR (c : Ctx) (l : List Chunk) : Str := (l.map (renderChunk c)).flatten

/-- The splitter's accumulator: `current`/`hasContent` are the
`current_batch`/`current_batch_has_content` variables; `batches` the emitted
list.  `ok` is the ghost budget flag described at the top of the file. -/
structure SplitState where
  current : List Chunk
  hasContent : Bool
  ok : Bool
  batches : List (List Chunk × Bool)

/-- The trial-append/rollback pattern used at every append site of
splitter.py (lines 203-214, 318-335, 371-382, 435-446, 496-512, 545-556,
593-604, 614-625): measure `current + add` plus the footer; on overflow flush
the current batch (when it has content) and seed a fresh batch from the base
header, the contextual re-headers `ctx`, and `add`; otherwise commit. -/
def trialStep (c : Ctx) (ctx add : List Chunk) (s : SplitState) : SplitState :=
  if c.maxBytes ≤ utf8Len (joinR c (s.current ++ add)) + utf8Len c.footer then
    let seed := Chunk.base :: (ctx ++ add)
    { current := seed,
      hasContent := true,
      ok := decide (utf8Len (joinR c seed) + utf8Len c.footer < c.maxBytes),
      batches := s.batches ++ (if s.hasContent then [(s.current, s.ok)] else []) }
  else
    { current := s.current ++ add, hasContent := true, ok := true, batches := s.batches }

/-- splitter.py lines 400-406: the word-group separator is committed only when
it fits together with the footer; otherwise it is dropped and the state is
left unchanged (no flush, no new batch). -/
def sepTrial (c : Ctx) (s : SplitState) : SplitState :=
  if utf8Len (joinR c (s.current ++ [Chunk.sep])) + utf8Len c.footer < c.maxBytes then
    { s with current := s.current ++ [Chunk.sep] }
  else s

/-- splitter.py line 558: the unconditional newline after each source group. -/
def nlStep (s : SplitState) : SplitState :=
  { s with current := s.current ++ [Chunk.nl] }

/-- The word-group header together with the group's first item line
(splitter.py lines 283-319: `word_with_first_news`). -/
def statUnit (i total L : Nat) (g : StatGroup) : List Chunk :=
  match g.titles with
  | [] => [Chunk.wordHead i total g]
  | t :: _ => [Chunk.wordHead i total g, Chunk.statItem i 0 L t]

def statsInnerStep (c : Ctx) (total i L : Nat) (g : StatGroup)
    (jt : Nat × TitleItem) (s : SplitState) : SplitState :=
  trialStep c [Chunk.statsHead, Chunk.wordHead i total g]
    [Chunk.statItem i jt.1 L jt.2] s

/-- splitter.py lines 337-382: the loop over a word-group's remaining items. -/
def statsInnerGo (c : Ctx) (total i L : Nat) (g : StatGroup) :
    List (Nat × TitleItem) → SplitState → SplitState
  | [], s => s
  | jt :: rest, s => statsInnerGo c total i L g rest (statsInnerStep c total i L g jt s)

/-- splitter.py lines 217-406: processing of one word-group — the atomic
header+first-item trial, the remaining items, then the separator trial when
the group is not the last one. -/
def statsGroupStep (c : Ctx) (total : Nat) (ig : Nat × StatGroup)
    (s : SplitState) : SplitState :=
  let i := ig.1
  let g := ig.2
  let L := g.titles.length
  let s1 := trialStep c [Chunk.statsHead] (statUnit i total L g) s
  let s2 := statsInnerGo c total i L g ((g.titles.drop 1).enumFrom 1) s1
  if i < total - 1 then sepTrial c s2 else s2

def statsGo (c : Ctx) (total : Nat) :
    List (Nat × StatGroup) → SplitState → SplitState
  | [], s => s
  | ig :: rest, s => statsGo c total rest (statsGroupStep c total ig s)

/-- splitter.py lines 195-407: `process_stats_section`. -/
def process_stats_section (c : Ctx) (stats : List StatGroup) (s : SplitState) :
    SplitState :=
  if stats = [] then s
  else statsGo c stats.length stats.enum (trialStep c [] [Chunk.statsHead] s)

/-- The source-group header together with the group's first item line
(splitter.py lines 464-497: `source_with_first_news`). -/
def srcUnit (i : Nat) (sg : SourceGroup) : List Chunk :=
  match sg.titles with
  | [] => [Chunk.srcHead i sg]
  | t :: _ => [Chunk.srcHead i sg, Chunk.newItem i 0 t]

def newInnerStep (c : Ctx) (i : Nat) (sg : SourceGroup) (jt : Nat × TitleItem)
    (s : SplitState) : SplitState :=
  trialStep c [Chunk.newHead, Chunk.srcHead i sg] [Chunk.newItem i jt.1 jt.2] s

/-- splitter.py lines 514-556: the loop over a source group's remaining items. -/
def newInnerGo (c : Ctx) (i : Nat) (sg : SourceGroup) :
    List (Nat × TitleItem) → SplitState → SplitState
  | [], s => s
  | jt :: rest, s => newInnerGo c i sg rest (newInnerStep c i sg jt s)

/-- splitter.py lines 449-558: processing of one source group, ending with the
unchecked trailing newline. -/
def newGroupStep (c : Ctx) (ig : Nat × SourceGroup) (s : SplitState) : SplitState :=
  let s1 := trialStep c [Chunk.newHead] (srcUnit ig.1 ig.2) s
  let s2 := newInnerGo c ig.1 ig.2 ((ig.2.titles.drop 1).enumFrom 1) s1
  nlStep s2

def newGo (c : Ctx) : List (Nat × SourceGroup) → SplitState → SplitState
  | [], s => s
  | ig :: rest, s => newGo c rest (newGroupStep c ig s)

/-- splitter.py lines 410-560: `process_new_titles_section`. -/
def process_new_titles_section (c : Ctx) (new_titles : List SourceGroup)
    (s : SplitState) : SplitState :=
  if new_titles = [] then s
  else newGo c new_titles.enum (trialStep c [] [Chunk.newHead] s)

def failedGo (c : Ctx) : List Str → SplitState → SplitState
  | [], s => s
  | id :: rest, s => failedGo c rest (trialStep c [Chunk.failedHead] [Chunk.failedLine id] s)

/-- splitter.py lines 580-625: the failed-sources section. -/
def processFailed (c : Ctx) (ids : List Str) (s : SplitState) : SplitState :=
  if ids = [] then s
  else failedGo c ids (trialStep c [] [Chunk.failedHead] s)

/-- The full argument list of `split_content_into_batches`
(splitter.py lines 23-35).  The injected clock is represented by the formatted
timestamp string `nowStr` it produces; `fmtTitle` is the external
`format_title_for_platform` collaborator. -/
structure SplitArgs where
  report_data : ReportData
  format_type : Str
  update_info : Option UpdateInfo := none
  max_bytes : Option Nat := none
  mode : Str := S "daily"
  batch_sizes : Option (List (Str × Nat)) := none
  feishu_separator : Str := S "---"
  reverse_content_order : Bool := false
  max_total_news_in_push : Nat := 0
  show_stats_in_push : Bool := true
  nowStr : Str := S "2024-01-01 00:00:00"
  fmtTitle : Str → TitleItem → Bool → Str

/-- The pre-processed report of one splitter invocation. -/
def splitPre (a : SplitArgs) : List StatGroup × List SourceGroup :=
  preprocessSplit a.report_data a.max_total_news_in_push a.show_stats_in_push

/-- The per-invocation context: splitter.py lines 54-65 (budget resolution),
110-173 (headers and footer), 384-398 and 416-433 and 580-591 (section
strings). -/
def mkCtx (a : SplitArgs) : Ctx :=
  let stats := (splitPre a).1
  let new_titles := (splitPre a).2
  let total_titles := ((stats.filter (fun g => 0 < g.count)).map (fun g => g.titles.length)).sum
  let actual_new_count := (new_titles.map (fun sg => sg.titles.length)).sum
  let hint :=
    if 0 < a.max_total_news_in_push ∧ actual_new_count < a.report_data.total_new_count then
      S " (已截取前 " ++ natStr actual_new_count ++ S " 条)"
    else []
  { format_type := a.format_type,
    fmtTitle := a.fmtTitle,
    maxBytes := resolveMaxBytes a.format_type a.max_bytes a.batch_sizes,
    baseHeader := baseHeaderStr a.format_type total_titles a.nowStr,
    footer := baseFooterStr a.format_type a.nowStr a.update_info,
    statsHeader := if stats = [] then [] else statsHeaderStr a.format_type,
    newHeader := newHeaderStr a.format_type a.report_data.total_new_count hint a.feishu_separator,
    failedHeader := failedHeaderStr a.format_type a.feishu_separator,
    sepStr := separatorStr a.format_type a.feishu_separator,
    noMatchStr := noMatchContent a.mode }

/-- splitter.py lines 175-631: the degenerate check, the two content sections
in configured order, the failed-sources section, and the final flush. -/
def splitCore (c : Ctx) (stats : List StatGroup) (new_titles : List SourceGroup)
    (failed_ids : List Str) (reverse_content_order : Bool) :
    List (List Chunk × Bool) :=
  if stats = [] ∧ new_titles = [] ∧ failed_ids = [] then
    [([Chunk.base, Chunk.noMatch],
      decide (utf8Len (joinR c [Chunk.base, Chunk.noMatch]) + utf8Len c.footer < c.maxBytes))]
  else
    let s0 : SplitState := { current := [Chunk.base], hasContent := false, ok := true, batches := [] }
    let s1 :=
      if reverse_content_order then
        process_stats_section c stats (process_new_titles_section c new_titles s0)
      else
        process_new_titles_section c new_titles (process_stats_section c stats s0)
    let s2 := processFailed c failed_ids s1
    s2.batches ++ (if s2.hasContent then [(s2.current, s2.ok)] else [])

/-- splitter.py lines 23-631, instrumented: returns the per-invocation context
and the emitted batches as chunk lists with the ghost budget flag.  The string
output of the Python function is recovered by `split_content_into_batches`. -/
def splitAux (a : SplitArgs) : Ctx × List (List Chunk × Bool) :=
  (mkCtx a,
   splitCore (mkCtx a) (splitPre a).1 (splitPre a).2 a.report_data.failed_ids
     a.reverse_content_order)

/-- The rendered string of one emitted batch (the Python code appends the base
footer at every flush). -/
def batchString (c : Ctx) (b : List Chunk × Bool) : Str := joinR c b.1 ++ c.footer

/-- splitter.py lines 23-631: `split_content_into_batches`, the list of
message strings. -/
def split_content_into_batches (a : SplitArgs) : List Str :=
  ((splitAux a).2).map (batchString (splitAux a).1)

/-! ### Ghost item traces: machinery for completeness and order preservation -/

def isItem : Chunk → Bool
  | Chunk.statItem _ _ _ _ => true
  | Chunk.newItem _ _ _ => true
  | _ => false

def isGroupHead : Chunk → Bool
  | Chunk.wordHead _ _ _ => true
  | Chunk.srcHead _ _ => true
  | _ => false

/-- The item lines of a chunk list, in order, with headers, separators and
footers stripped. -/
def itemsOf (l : List Chunk) : List Chunk := l.filter isItem

/-- The item lines of the emitted batches, concatenated in emission order. -/
def outputItems (bs : List (List Chunk × Bool)) : List Chunk :=
  (bs.map (fun b => itemsOf b.1)).flatten

/-- The item lines an accumulator state accounts for: the flushed batches
followed by the pending current batch. -/
def traceS (s : SplitState) : List Chunk :=
  outputItems s.batches ++ itemsOf s.current

/-- Before any content is committed, the pending batch holds no item lines. -/
def NoPendingItems (s : SplitState) : Prop :=
  s.hasContent = false → itemsOf s.current = []

/-- The expected item trace of one stats group. -/
def statGroupTrace (i : Nat) (g : StatGroup) : List Chunk :=
  g.titles.enum.map (fun jt => Chunk.statItem i jt.1 g.titles.length jt.2)

/-- The expected item trace of the whole stats section, in input order. -/
def statTrace (stats : List StatGroup) : List Chunk :=
  (stats.enum.map (fun ig => statGroupTrace ig.1 ig.2)).flatten

def newGroupTrace (i : Nat) (sg : SourceGroup) : List Chunk :=
  sg.titles.enum.map (fun jt => Chunk.newItem i jt.1 jt.2)

def newTrace (new_titles : List SourceGroup) : List Chunk :=
  (new_titles.enum.map (fun ig => newGroupTrace ig.1 ig.2)).flatten

@[simp] lemma itemsOf_nil : itemsOf [] = [] := rfl

@[simp] lemma itemsOf_append (l m : List Chunk) : itemsOf (l ++ m) = itemsOf l ++ itemsOf m := by
  simp [itemsOf]

@[simp] lemma itemsOf_base (l : List Chunk) : itemsOf (Chunk.base :: l) = itemsOf l := rfl

@[simp] lemma itemsOf_sepc : itemsOf [Chunk.sep] = [] := rfl

@[simp] lemma itemsOf_nlc : itemsOf [Chunk.nl] = [] := rfl

@[simp] lemma outputItems_nil : outputItems [] = [] := rfl

@[simp] lemma outputItems_append (a b : List (List Chunk × Bool)) :
    outputItems (a ++ b) = outputItems a ++ outputItems b := by
  simp [outputItems]

@[simp] lemma outputItems_single (b : List Chunk × Bool) :
    outputItems [b] = itemsOf b.1 := by
  simp [outputItems, itemsOf]

lemma trialStep_trace (c : Ctx) (ctx add : List Chunk) (s : SplitState)
    (hctx : itemsOf ctx = []) (h : NoPendingItems s) :
    traceS (trialStep c ctx add s) = traceS s ++ itemsOf add ∧
      NoPendingItems (trialStep c ctx add s) ∧
      (trialStep c ctx add s).hasContent = true := by
  unfold trialStep
  by_cases hcond : c.maxBytes ≤ utf8Len (joinR c (s.current ++ add)) + utf8Len c.footer
  · simp only [if_pos hcond]
    refine ⟨?_, fun hf => by simp at hf, by trivial⟩
    cases hhc : s.hasContent with
    | false =>
      have hcur := h hhc
      simp [traceS, hhc, hctx, hcur]
    | true =>
      simp [traceS, hhc, hctx]
  · simp only [if_neg hcond]
    refine ⟨?_, fun hf => by simp at hf, by trivial⟩
    simp [traceS]

lemma sepTrial_trace (c : Ctx) (s : SplitState) :
    traceS (sepTrial c s) = traceS s ∧ (sepTrial c s).hasContent = s.hasContent ∧
      (sepTrial c s).batches = s.batches := by
  unfold sepTrial
  by_cases hcond : utf8Len (joinR c (s.current ++ [Chunk.sep])) + utf8Len c.footer < c.maxBytes
  · simp [hcond, traceS]
  · simp [hcond]

lemma nlStep_trace (s : SplitState) :
    traceS (nlStep s) = traceS s ∧ (nlStep s).hasContent = s.hasContent ∧
      (nlStep s).batches = s.batches := by
  unfold nlStep
  simp [traceS]

@[simp] lemma itemsOf_statCtx (i total : Nat) (g : StatGroup) :
    itemsOf [Chunk.statsHead, Chunk.wordHead i total g] = [] := rfl

@[simp] lemma itemsOf_statItem (i j L : Nat) (it : TitleItem) :
    itemsOf [Chunk.statItem i j L it] = [Chunk.statItem i j L it] := rfl

@[simp] lemma itemsOf_newCtx (i : Nat) (sg : SourceGroup) :
    itemsOf [Chunk.newHead, Chunk.srcHead i sg] = [] := rfl

@[simp] lemma itemsOf_newItem (i j : Nat) (it : TitleItem) :
    itemsOf [Chunk.newItem i j it] = [Chunk.newItem i j it] := rfl

@[simp] lemma itemsOf_statsHead : itemsOf [Chunk.statsHead] = [] := rfl

@[simp] lemma itemsOf_newHead : itemsOf [Chunk.newHead] = [] := rfl

@[simp] lemma itemsOf_failedHead : itemsOf [Chunk.failedHead] = [] := rfl

@[simp] lemma itemsOf_failedLine (id : Str) : itemsOf [Chunk.failedLine id] = [] := rfl

lemma sepTrial_npi (c : Ctx) (s : SplitState) (h : NoPendingItems s) :
    NoPendingItems (sepTrial c s) := by
  unfold sepTrial
  split
  · intro hf
    simp only [itemsOf_append, itemsOf_sepc, List.append_nil]
    exact h hf
  · exact h

lemma nlStep_npi (s : SplitState) (h : NoPendingItems s) :
    NoPendingItems (nlStep s) := by
  unfold nlStep
  intro hf
  simp only [itemsOf_append, itemsOf_nlc, List.append_nil]
  exact h hf

lemma statsInnerGo_trace (c : Ctx) (total i L : Nat) (g : StatGroup) :
    ∀ (jts : List (Nat × TitleItem)) (s : SplitState), NoPendingItems s →
      traceS (statsInnerGo c total i L g jts s) =
        traceS s ++ jts.map (fun jt => Chunk.statItem i jt.1 L jt.2) ∧
      NoPendingItems (statsInnerGo c total i L g jts s) := by
  intro jts
  induction jts with
  | nil => intro s h; exact ⟨by simp [statsInnerGo], h⟩
  | cons jt rest ih =>
    intro s h
    have hstep := trialStep_trace c [Chunk.statsHead, Chunk.wordHead i total g]
      [Chunk.statItem i jt.1 L jt.2] s (by simp) h
    have hrec := ih (statsInnerStep c total i L g jt s) hstep.2.1
    refine ⟨?_, hrec.2⟩
    rw [statsInnerGo, hrec.1]
    show traceS (trialStep c [Chunk.statsHead, Chunk.wordHead i total g]
      [Chunk.statItem i jt.1 L jt.2] s) ++ _ = _
    rw [hstep.1]
    simp

lemma statGroupTrace_eq (i : Nat) (g : StatGroup) :
    statGroupTrace i g =
      (match g.titles with
       | [] => []
       | t :: _ => [Chunk.statItem i 0 g.titles.length t]) ++
      ((g.titles.drop 1).enumFrom 1).map
        (fun jt => Chunk.statItem i jt.1 g.titles.length jt.2) := by
  cases h : g.titles with
  | nil => simp [statGroupTrace, h]
  | cons t rest => simp [statGroupTrace, h, List.enum]

lemma statsGroupStep_trace (c : Ctx) (total : Nat) (ig : Nat × StatGroup)
    (s : SplitState) (h : NoPendingItems s) :
    traceS (statsGroupStep c total ig s) = traceS s ++ statGroupTrace ig.1 ig.2 ∧
      NoPendingItems (statsGroupStep c total ig s) := by
  obtain ⟨i, g⟩ := ig
  have hunit := trialStep_trace c [Chunk.statsHead]
    (statUnit i total g.titles.length g) s (by simp) h
  have hinner := statsInnerGo_trace c total i g.titles.length g
    ((g.titles.drop 1).enumFrom 1)
    (trialStep c [Chunk.statsHead] (statUnit i total g.titles.length g) s) hunit.2.1
  have hmain : traceS (statsInnerGo c total i g.titles.length g
      ((g.titles.drop 1).enumFrom 1)
      (trialStep c [Chunk.statsHead] (statUnit i total g.titles.length g) s)) =
      traceS s ++ statGroupTrace i g := by
    rw [hinner.1, hunit.1, statGroupTrace_eq]
    cases htit : g.titles with
    | nil => simp [statUnit, htit, itemsOf, isItem]
    | cons t rest => simp [statUnit, htit, itemsOf, isItem]
  have hsep := sepTrial_trace c (statsInnerGo c total i g.titles.length g
    ((g.titles.drop 1).enumFrom 1)
    (trialStep c [Chunk.statsHead] (statUnit i total g.titles.length g) s))
  constructor
  · show traceS (if i < total - 1 then sepTrial c _ else _) = _
    by_cases hlt : i < total - 1
    · simp only [if_pos hlt, hsep.1, hmain]
    · simp only [if_neg hlt, hmain]
  · show NoPendingItems (if i < total - 1 then sepTrial c _ else _)
    by_cases hlt : i < total - 1
    · simp only [if_pos hlt]
      exact sepTrial_npi _ _ hinner.2
    · simp only [if_neg hlt]
      exact hinner.2

lemma statsGo_trace (c : Ctx) (total : Nat) :
    ∀ (igs : List (Nat × StatGroup)) (s : SplitState), NoPendingItems s →
      traceS (statsGo c total igs s) =
        traceS s ++ (igs.map (fun ig => statGroupTrace ig.1 ig.2)).flatten ∧
      NoPendingItems (statsGo c total igs s) := by
  intro igs
  induction igs with
  | nil => intro s h; exact ⟨by simp [statsGo], h⟩
  | cons ig rest ih =>
    intro s h
    have hstep := statsGroupStep_trace c total ig s h
    have hrec := ih (statsGroupStep c total ig s) hstep.2
    refine ⟨?_, hrec.2⟩
    rw [statsGo, hrec.1, hstep.1]
    simp

lemma process_stats_section_trace (c : Ctx) (stats : List StatGroup)
    (s : SplitState) (h : NoPendingItems s) :
    traceS (process_stats_section c stats s) = traceS s ++ statTrace stats ∧
      NoPendingItems (process_stats_section c stats s) := by
  unfold process_stats_section
  by_cases hs : stats = []
  · simp only [if_pos hs]
    exact ⟨by simp [hs, statTrace], h⟩
  · simp only [if_neg hs]
    have hhead := trialStep_trace c [] [Chunk.statsHead] s (by simp) h
    have hgo := statsGo_trace c stats.length stats.enum
      (trialStep c [] [Chunk.statsHead] s) hhead.2.1
    refine ⟨?_, hgo.2⟩
    rw [hgo.1, hhead.1]
    simp [statTrace]

lemma newGroupTrace_eq (i : Nat) (sg : SourceGroup) :
    newGroupTrace i sg =
      (match sg.titles with
       | [] => []
       | t :: _ => [Chunk.newItem i 0 t]) ++
      ((sg.titles.drop 1).enumFrom 1).map (fun jt => Chunk.newItem i jt.1 jt.2) := by
  cases h : sg.titles with
  | nil => simp [newGroupTrace, h]
  | cons t rest => simp [newGroupTrace, h, List.enum]

lemma newInnerGo_trace (c : Ctx) (i : Nat) (sg : SourceGroup) :
    ∀ (jts : List (Nat × TitleItem)) (s : SplitState), NoPendingItems s →
      traceS (newInnerGo c i sg jts s) =
        traceS s ++ jts.map (fun jt => Chunk.newItem i jt.1 jt.2) ∧
      NoPendingItems (newInnerGo c i sg jts s) := by
  intro jts
  induction jts with
  | nil => intro s h; exact ⟨by simp [newInnerGo], h⟩
  | cons jt rest ih =>
    intro s h
    have hstep := trialStep_trace c [Chunk.newHead, Chunk.srcHead i sg]
      [Chunk.newItem i jt.1 jt.2] s (by simp) h
    have hrec := ih (newInnerStep c i sg jt s) hstep.2.1
    refine ⟨?_, hrec.2⟩
    rw [newInnerGo, hrec.1]
    show traceS (trialStep c [Chunk.newHead, Chunk.srcHead i sg]
      [Chunk.newItem i jt.1 jt.2] s) ++ _ = _
    rw [hstep.1]
    simp

lemma newGroupStep_trace (c : Ctx) (ig : Nat × SourceGroup)
    (s : SplitState) (h : NoPendingItems s) :
    traceS (newGroupStep c ig s) = traceS s ++ newGroupTrace ig.1 ig.2 ∧
      NoPendingItems (newGroupStep c ig s) := by
  obtain ⟨i, sg⟩ := ig
  have hunit := trialStep_trace c [Chunk.newHead] (srcUnit i sg) s (by simp) h
  have hinner := newInnerGo_trace c i sg ((sg.titles.drop 1).enumFrom 1)
    (trialStep c [Chunk.newHead] (srcUnit i sg) s) hunit.2.1
  have hnl := nlStep_trace (newInnerGo c i sg ((sg.titles.drop 1).enumFrom 1)
    (trialStep c [Chunk.newHead] (srcUnit i sg) s))
  constructor
  · show traceS (nlStep _) = _
    rw [hnl.1, hinner.1, hunit.1, newGroupTrace_eq]
    cases htit : sg.titles with
    | nil => simp [srcUnit, htit, itemsOf, isItem]
    | cons t rest => simp [srcUnit, htit, itemsOf, isItem]
  · exact nlStep_npi _ hinner.2

lemma newGo_trace (c : Ctx) :
    ∀ (igs : List (Nat × SourceGroup)) (s : SplitState), NoPendingItems s →
      traceS (newGo c igs s) =
        traceS s ++ (igs.map (fun ig => newGroupTrace ig.1 ig.2)).flatten ∧
      NoPendingItems (newGo c igs s) := by
  intro igs
  induction igs with
  | nil => intro s h; exact ⟨by simp [newGo], h⟩
  | cons ig rest ih =>
    intro s h
    have hstep := newGroupStep_trace c ig s h
    have hrec := ih (newGroupStep c ig s) hstep.2
    refine ⟨?_, hrec.2⟩
    rw [newGo, hrec.1, hstep.1]
    simp

lemma process_new_titles_section_trace (c : Ctx) (new_titles : List SourceGroup)
    (s : SplitState) (h : NoPendingItems s) :
    traceS (process_new_titles_section c new_titles s) = traceS s ++ newTrace new_titles ∧
      NoPendingItems (process_new_titles_section c new_titles s) := by
  unfold process_new_titles_section
  by_cases hs : new_titles = []
  · simp only [if_pos hs]
    exact ⟨by simp [hs, newTrace], h⟩
  · simp only [if_neg hs]
    have hhead := trialStep_trace c [] [Chunk.newHead] s (by simp) h
    have hgo := newGo_trace c new_titles.enum
      (trialStep c [] [Chunk.newHead] s) hhead.2.1
    refine ⟨?_, hgo.2⟩
    rw [hgo.1, hhead.1]
    simp [newTrace]

lemma failedGo_trace (c : Ctx) :
    ∀ (ids : List Str) (s : SplitState), NoPendingItems s →
      traceS (failedGo c ids s) = traceS s ∧ NoPendingItems (failedGo c ids s) := by
  intro ids
  induction ids with
  | nil => intro s h; exact ⟨by simp [failedGo], h⟩
  | cons id rest ih =>
    intro s h
    have hstep := trialStep_trace c [Chunk.failedHead] [Chunk.failedLine id] s (by simp) h
    have hrec := ih (trialStep c [Chunk.failedHead] [Chunk.failedLine id] s) hstep.2.1
    refine ⟨?_, hrec.2⟩
    rw [failedGo, hrec.1, hstep.1]
    simp

lemma processFailed_trace (c : Ctx) (ids : List Str)
    (s : SplitState) (h : NoPendingItems s) :
    traceS (processFailed c ids s) = traceS s ∧
      NoPendingItems (processFailed c ids s) := by
  unfold processFailed
  by_cases hs : ids = []
  · simp only [if_pos hs]
    exact ⟨by trivial, h⟩
  · simp only [if_neg hs]
    have hhead := trialStep_trace c [] [Chunk.failedHead] s (by simp) h
    have hgo := failedGo_trace c ids (trialStep c [] [Chunk.failedHead] s) hhead.2.1
    refine ⟨?_, hgo.2⟩
    rw [hgo.1, hhead.1]
    simp

/-- The item trace of one splitter core run over an arbitrary context. -/
lemma splitCore_items (c : Ctx) (stats : List StatGroup) (new_titles : List SourceGroup)
    (failed_ids : List Str) (rev : Bool) :
    outputItems (splitCore c stats new_titles failed_ids rev) =
      (if rev then newTrace new_titles ++ statTrace stats
       else statTrace stats ++ newTrace new_titles) := by
  unfold splitCore
  by_cases hdeg : stats = [] ∧ new_titles = [] ∧ failed_ids = []
  · rw [if_pos hdeg]
    simp [hdeg.1, hdeg.2.1, statTrace, newTrace, outputItems, itemsOf, isItem]
  · simp only [if_neg hdeg]
    set s0 : SplitState :=
      { current := [Chunk.base], hasContent := false, ok := true, batches := [] } with hs0
    have hnp0 : NoPendingItems s0 := by intro hf; simp [hs0, itemsOf, isItem]
    have htr0 : traceS s0 = [] := by simp [traceS, hs0, outputItems, itemsOf, isItem]
    have key : ∀ (sF : SplitState),
        outputItems (sF.batches ++ (if sF.hasContent then [(sF.current, sF.ok)] else [])) =
          traceS sF ∨ (sF.hasContent = false ∧
        outputItems (sF.batches ++ (if sF.hasContent then [(sF.current, sF.ok)] else [])) =
          outputItems sF.batches) := by
      intro sF
      cases hhc : sF.hasContent with
      | true => left; simp [traceS, hhc]
      | false => right; exact ⟨rfl, by simp [hhc]⟩
    by_cases hrev : rev
    · simp only [if_pos hrev]
      have h1 := process_new_titles_section_trace c new_titles s0 hnp0
      have h2 := process_stats_section_trace c stats (process_new_titles_section c new_titles s0) h1.2
      have h3 := processFailed_trace c failed_ids _ h2.2
      have hfin : traceS (processFailed c failed_ids
          (process_stats_section c stats (process_new_titles_section c new_titles s0))) =
          newTrace new_titles ++ statTrace stats := by
        rw [h3.1, h2.1, h1.1, htr0]
        simp
      rcases key (processFailed c failed_ids
          (process_stats_section c stats (process_new_titles_section c new_titles s0))) with hk | hk
      · rw [hk, hfin]
      · rw [hk.2]
        have hcur := h3.2 hk.1
        have : traceS (processFailed c failed_ids
            (process_stats_section c stats (process_new_titles_section c new_titles s0))) =
            outputItems (processFailed c failed_ids
            (process_stats_section c stats (process_new_titles_section c new_titles s0))).batches := by
          rw [traceS, hcur, List.append_nil]
        rw [← this, hfin]
    · simp only [if_neg hrev]
      have h1 := process_stats_section_trace c stats s0 hnp0
      have h2 := process_new_titles_section_trace c new_titles (process_stats_section c stats s0) h1.2
      have h3 := processFailed_trace c failed_ids _ h2.2
      have hfin : traceS (processFailed c failed_ids
          (process_new_titles_section c new_titles (process_stats_section c stats s0))) =
          statTrace stats ++ newTrace new_titles := by
        rw [h3.1, h2.1, h1.1, htr0]
        simp
      rcases key (processFailed c failed_ids
          (process_new_titles_section c new_titles (process_stats_section c stats s0))) with hk | hk
      · rw [hk, hfin]
      · rw [hk.2]
        have hcur := h3.2 hk.1
        have : traceS (processFailed c failed_ids
            (process_new_titles_section c new_titles (process_stats_section c stats s0))) =
            outputItems (processFailed c failed_ids
            (process_new_titles_section c new_titles (process_stats_section c stats s0))).batches := by
          rw [traceS, hcur, List.append_nil]
        rw [← this, hfin]

/-- The item trace of the full splitter run: every (group, item) pair of the
pre-processed report, each exactly once, groups and items in input order, the
two sections ordered according to `reverse_content_order`. -/
lemma splitAux_items (a : SplitArgs) :
    outputItems (splitAux a).2 =
      (if a.reverse_content_order then
        newTrace (splitPre a).2 ++ statTrace (splitPre a).1
      else
        statTrace (splitPre a).1 ++ newTrace (splitPre a).2) := by
  exact splitCore_items (mkCtx a) (splitPre a).1 (splitPre a).2 a.report_data.failed_ids
    a.reverse_content_order

/-! ### Budget bounds: machinery for the byte-budget claim -/

@[simp] lemma utf8Len_append (s t : Str) : utf8Len (s ++ t) = utf8Len s + utf8Len t := by
  simp [utf8Len]

@[simp] lemma joinR_append (c : Ctx) (l m : List Chunk) :
    joinR c (l ++ m) = joinR c l ++ joinR c m := by
  simp [joinR]

lemma utf8Len_nl_chunk (c : Ctx) : utf8Len (joinR c [Chunk.nl]) = 1 := by
  simp [joinR, renderChunk]
  decide

/-- Every emitted batch whose ghost flag is set fits in the budget together
with the footer. -/
def BatchesBounded (c : Ctx) (bs : List (List Chunk × Bool)) : Prop :=
  ∀ p ∈ bs, p.2 = true → utf8Len (joinR c p.1) + utf8Len c.footer ≤ c.maxBytes

/-- The pending batch fits (when flagged and non-fresh). -/
def CurLoose (c : Ctx) (s : SplitState) : Prop :=
  s.hasContent = true → s.ok = true →
    utf8Len (joinR c s.current) + utf8Len c.footer ≤ c.maxBytes

/-- The pending batch fits with one byte to spare: this is what every trial
append (re-measuring the whole batch) establishes, and what survives the one
unchecked newline append. -/
def CurTight (c : Ctx) (s : SplitState) : Prop :=
  s.hasContent = true → s.ok = true →
    utf8Len (joinR c s.current) + utf8Len c.footer + 1 ≤ c.maxBytes

lemma curTight_loose {c : Ctx} {s : SplitState} (h : CurTight c s) : CurLoose c s :=
  fun h1 h2 => by have := h h1 h2; omega

lemma trialStep_budget (c : Ctx) (ctx add : List Chunk) (s : SplitState)
    (h : CurLoose c s) (hb : BatchesBounded c s.batches) :
    CurTight c (trialStep c ctx add s) ∧
      BatchesBounded c (trialStep c ctx add s).batches := by
  unfold trialStep
  by_cases hcond : c.maxBytes ≤ utf8Len (joinR c (s.current ++ add)) + utf8Len c.footer
  · simp only [if_pos hcond]
    constructor
    · intro _ hok
      have hfit := of_decide_eq_true hok
      show utf8Len (joinR c (Chunk.base :: (ctx ++ add))) + utf8Len c.footer + 1 ≤ c.maxBytes
      omega
    · intro p hp hpt
      rcases List.mem_append.1 hp with h1 | h2
      · exact hb p h1 hpt
      · cases hhc : s.hasContent with
        | false => rw [hhc] at h2; simp at h2
        | true =>
          rw [hhc] at h2
          simp at h2
          subst h2
          exact h hhc hpt
  · simp only [if_neg hcond]
    constructor
    · intro _ _
      push_neg at hcond
      show utf8Len (joinR c (s.current ++ add)) + utf8Len c.footer + 1 ≤ c.maxBytes
      omega
    · exact hb

lemma sepTrial_budget (c : Ctx) (s : SplitState) (h : CurTight c s) :
    CurTight c (sepTrial c s) ∧ (sepTrial c s).batches = s.batches := by
  unfold sepTrial
  by_cases hcond : utf8Len (joinR c (s.current ++ [Chunk.sep])) + utf8Len c.footer < c.maxBytes
  · simp only [if_pos hcond]
    refine ⟨fun _ _ => ?_, by trivial⟩
    show utf8Len (joinR c (s.current ++ [Chunk.sep])) + utf8Len c.footer + 1 ≤ c.maxBytes
    omega
  · simp only [if_neg hcond]
    exact ⟨h, by trivial⟩

lemma nlStep_budget (c : Ctx) (s : SplitState) (h : CurTight c s) :
    CurLoose c (nlStep s) ∧ (nlStep s).batches = s.batches := by
  refine ⟨fun h1 h2 => ?_, rfl⟩
  have := h h1 h2
  show utf8Len (joinR c (s.current ++ [Chunk.nl])) + utf8Len c.footer ≤ c.maxBytes
  rw [joinR_append, utf8Len_append, utf8Len_nl_chunk]
  omega

lemma statsInnerGo_budget (c : Ctx) (total i L : Nat) (g : StatGroup) :
    ∀ (jts : List (Nat × TitleItem)) (s : SplitState),
      CurTight c s → BatchesBounded c s.batches →
      CurTight c (statsInnerGo c total i L g jts s) ∧
        BatchesBounded c (statsInnerGo c total i L g jts s).batches := by
  intro jts
  induction jts with
  | nil => intro s h hb; exact ⟨h, hb⟩
  | cons jt rest ih =>
    intro s h hb
    have hstep := trialStep_budget c [Chunk.statsHead, Chunk.wordHead i total g]
      [Chunk.statItem i jt.1 L jt.2] s (curTight_loose h) hb
    exact ih _ hstep.1 hstep.2

lemma statsGroupStep_budget (c : Ctx) (total : Nat) (ig : Nat × StatGroup)
    (s : SplitState) (h : CurLoose c s) (hb : BatchesBounded c s.batches) :
    CurTight c (statsGroupStep c total ig s) ∧
      BatchesBounded c (statsGroupStep c total ig s).batches := by
  obtain ⟨i, g⟩ := ig
  have hunit := trialStep_budget c [Chunk.statsHead]
    (statUnit i total g.titles.length g) s h hb
  have hinner := statsInnerGo_budget c total i g.titles.length g
    ((g.titles.drop 1).enumFrom 1) _ hunit.1 hunit.2
  show CurTight c (if i < total - 1 then sepTrial c _ else _) ∧
    BatchesBounded c (if i < total - 1 then sepTrial c _ else _).batches
  by_cases hlt : i < total - 1
  · simp only [if_pos hlt]
    have hsep := sepTrial_budget c _ hinner.1
    exact ⟨hsep.1, by rw [hsep.2]; exact hinner.2⟩
  · simp only [if_neg hlt]
    exact hinner

lemma statsGo_budget (c : Ctx) (total : Nat) :
    ∀ (igs : List (Nat × StatGroup)) (s : SplitState),
      CurLoose c s → BatchesBounded c s.batches →
      CurLoose c (statsGo c total igs s) ∧
        BatchesBounded c (statsGo c total igs s).batches := by
  intro igs
  induction igs with
  | nil => intro s h hb; exact ⟨h, hb⟩
  | cons ig rest ih =>
    intro s h hb
    have hstep := statsGroupStep_budget c total ig s h hb
    exact ih _ (curTight_loose hstep.1) hstep.2

lemma process_stats_section_budget (c : Ctx) (stats : List StatGroup)
    (s : SplitState) (h : CurLoose c s) (hb : BatchesBounded c s.batches) :
    CurLoose c (process_stats_section c stats s) ∧
      BatchesBounded c (process_stats_section c stats s).batches := by
  unfold process_stats_section
  by_cases hs : stats = []
  · simp only [if_pos hs]
    exact ⟨h, hb⟩
  · simp only [if_neg hs]
    have hhead := trialStep_budget c [] [Chunk.statsHead] s h hb
    exact statsGo_budget c stats.length stats.enum _ (curTight_loose hhead.1) hhead.2

lemma newInnerGo_budget (c : Ctx) (i : Nat) (sg : SourceGroup) :
    ∀ (jts : List (Nat × TitleItem)) (s : SplitState),
      CurTight c s → BatchesBounded c s.batches →
      CurTight c (newInnerGo c i sg jts s) ∧
        BatchesBounded c (newInnerGo c i sg jts s).batches := by
  intro jts
  induction jts with
  | nil => intro s h hb; exact ⟨h, hb⟩
  | cons jt rest ih =>
    intro s h hb
    have hstep := trialStep_budget c [Chunk.newHead, Chunk.srcHead i sg]
      [Chunk.newItem i jt.1 jt.2] s (curTight_loose h) hb
    exact ih _ hstep.1 hstep.2

lemma newGroupStep_budget (c : Ctx) (ig : Nat × SourceGroup)
    (s : SplitState) (h : CurLoose c s) (hb : BatchesBounded c s.batches) :
    CurLoose c (newGroupStep c ig s) ∧
      BatchesBounded c (newGroupStep c ig s).batches := by
  obtain ⟨i, sg⟩ := ig
  have hunit := trialStep_budget c [Chunk.newHead] (srcUnit i sg) s h hb
  have hinner := newInnerGo_budget c i sg ((sg.titles.drop 1).enumFrom 1) _ hunit.1 hunit.2
  have hnl := nlStep_budget c _ hinner.1
  have heq : newGroupStep c (i, sg) s = nlStep (newInnerGo c i sg
      ((sg.titles.drop 1).enumFrom 1) (trialStep c [Chunk.newHead] (srcUnit i sg) s)) := rfl
  rw [heq]
  exact ⟨hnl.1, by rw [hnl.2]; exact hinner.2⟩

lemma newGo_budget (c : Ctx) :
    ∀ (igs : List (Nat × SourceGroup)) (s : SplitState),
      CurLoose c s → BatchesBounded c s.batches →
      CurLoose c (newGo c igs s) ∧ BatchesBounded c (newGo c igs s).batches := by
  intro igs
  induction igs with
  | nil => intro s h hb; exact ⟨h, hb⟩
  | cons ig rest ih =>
    intro s h hb
    have hstep := newGroupStep_budget c ig s h hb
    exact ih _ hstep.1 hstep.2

lemma process_new_titles_section_budget (c : Ctx) (new_titles : List SourceGroup)
    (s : SplitState) (h : CurLoose c s) (hb : BatchesBounded c s.batches) :
    CurLoose c (process_new_titles_section c new_titles s) ∧
      BatchesBounded c (process_new_titles_section c new_titles s).batches := by
  unfold process_new_titles_section
  by_cases hs : new_titles = []
  · simp only [if_pos hs]
    exact ⟨h, hb⟩
  · simp only [if_neg hs]
    have hhead := trialStep_budget c [] [Chunk.newHead] s h hb
    exact newGo_budget c new_titles.enum _ (curTight_loose hhead.1) hhead.2

lemma failedGo_budget (c : Ctx) :
    ∀ (ids : List Str) (s : SplitState),
      CurLoose c s → BatchesBounded c s.batches →
      CurLoose c (failedGo c ids s) ∧ BatchesBounded c (failedGo c ids s).batches := by
  intro ids
  induction ids with
  | nil => intro s h hb; exact ⟨h, hb⟩
  | cons id rest ih =>
    intro s h hb
    have hstep := trialStep_budget c [Chunk.failedHead] [Chunk.failedLine id] s h hb
    exact ih _ (curTight_loose hstep.1) hstep.2

lemma processFailed_budget (c : Ctx) (ids : List Str)
    (s : SplitState) (h : CurLoose c s) (hb : BatchesBounded c s.batches) :
    CurLoose c (processFailed c ids s) ∧
      BatchesBounded c (processFailed c ids s).batches := by
  unfold processFailed
  by_cases hs : ids = []
  · simp only [if_pos hs]
    exact ⟨h, hb⟩
  · simp only [if_neg hs]
    have hhead := trialStep_budget c [] [Chunk.failedHead] s h hb
    exact failedGo_budget c ids _ (curTight_loose hhead.1) hhead.2

/-- Every flag-true batch of a splitter core run fits the budget. -/
lemma splitCore_bounded (c : Ctx) (stats : List StatGroup)
    (new_titles : List SourceGroup) (failed_ids : List Str) (rev : Bool) :
    BatchesBounded c (splitCore c stats new_titles failed_ids rev) := by
  unfold splitCore
  by_cases hdeg : stats = [] ∧ new_titles = [] ∧ failed_ids = []
  · rw [if_pos hdeg]
    intro p hp hpt
    simp only [List.mem_singleton] at hp
    subst hp
    simp only at hpt
    have := of_decide_eq_true hpt
    simp only [joinR_append] at this ⊢
    omega
  · rw [if_neg hdeg]
    set s0 : SplitState :=
      { current := [Chunk.base], hasContent := false, ok := true, batches := [] } with hs0
    have h0 : CurLoose c s0 := by intro hf; simp [hs0] at hf
    have hb0 : BatchesBounded c s0.batches := by intro p hp; simp [hs0] at hp
    have hsec : ∀ s1 : SplitState, CurLoose c s1 → BatchesBounded c s1.batches →
        BatchesBounded c ((processFailed c failed_ids s1).batches ++
          (if (processFailed c failed_ids s1).hasContent then
            [((processFailed c failed_ids s1).current, (processFailed c failed_ids s1).ok)]
          else [])) := by
      intro s1 h1 hb1
      have hf := processFailed_budget c failed_ids s1 h1 hb1
      intro p hp hpt
      rcases List.mem_append.1 hp with hm | hm
      · exact hf.2 p hm hpt
      · cases hhc : (processFailed c failed_ids s1).hasContent with
        | false => rw [hhc] at hm; simp at hm
        | true =>
          rw [hhc] at hm
          simp at hm
          subst hm
          exact hf.1 hhc hpt
    by_cases hrev : rev
    · simp only [if_pos hrev]
      have h1 := process_new_titles_section_budget c new_titles s0 h0 hb0
      have h2 := process_stats_section_budget c stats _ h1.1 h1.2
      exact hsec _ h2.1 h2.2
    · simp only [if_neg hrev]
      have h1 := process_stats_section_budget c stats s0 h0 hb0
      have h2 := process_new_titles_section_budget c new_titles _ h1.1 h1.2
      exact hsec _ h2.1 h2.2

lemma utf8Len_le_append (c : Ctx) (l m : List Chunk) :
    utf8Len (joinR c l) ≤ utf8Len (joinR c (l ++ m)) := by
  rw [joinR_append, utf8Len_append]
  omega

/-- A pending batch whose ghost flag is cleared already overflows the budget
(its oversized seed never shrinks). -/
def CurOver (c : Ctx) (s : SplitState) : Prop :=
  s.ok = false → c.maxBytes ≤ utf8Len (joinR c s.current) + utf8Len c.footer

def BatchesOver (c : Ctx) (bs : List (List Chunk × Bool)) : Prop :=
  ∀ p ∈ bs, p.2 = false → c.maxBytes ≤ utf8Len (joinR c p.1) + utf8Len c.footer

lemma trialStep_over (c : Ctx) (ctx add : List Chunk) (s : SplitState)
    (h : CurOver c s) (hb : BatchesOver c s.batches) :
    CurOver c (trialStep c ctx add s) ∧ BatchesOver c (trialStep c ctx add s).batches := by
  unfold trialStep
  by_cases hcond : c.maxBytes ≤ utf8Len (joinR c (s.current ++ add)) + utf8Len c.footer
  · simp only [if_pos hcond]
    constructor
    · intro hok
      have hnofit := of_decide_eq_false hok
      show c.maxBytes ≤ utf8Len (joinR c (Chunk.base :: (ctx ++ add))) + utf8Len c.footer
      omega
    · intro p hp hpf
      rcases List.mem_append.1 hp with h1 | h2
      · exact hb p h1 hpf
      · cases hhc : s.hasContent with
        | false => rw [hhc] at h2; simp at h2
        | true =>
          rw [hhc] at h2
          simp at h2
          subst h2
          exact h hpf
  · simp only [if_neg hcond]
    exact ⟨fun hok => by simp at hok, hb⟩

lemma sepTrial_over (c : Ctx) (s : SplitState) (h : CurOver c s) :
    CurOver c (sepTrial c s) := by
  unfold sepTrial
  split
  · intro hok
    have hold : s.ok = false := hok
    have := h hold
    have hmono := utf8Len_le_append c s.current [Chunk.sep]
    show c.maxBytes ≤ utf8Len (joinR c (s.current ++ [Chunk.sep])) + utf8Len c.footer
    omega
  · exact h

lemma nlStep_over (c : Ctx) (s : SplitState) (h : CurOver c s) :
    CurOver c (nlStep s) := by
  intro hok
  have hold : s.ok = false := hok
  have := h hold
  have hmono := utf8Len_le_append c s.current [Chunk.nl]
  show c.maxBytes ≤ utf8Len (joinR c (s.current ++ [Chunk.nl])) + utf8Len c.footer
  omega

lemma statsInnerGo_over (c : Ctx) (total i L : Nat) (g : StatGroup) :
    ∀ (jts : List (Nat × TitleItem)) (s : SplitState),
      CurOver c s → BatchesOver c s.batches →
      CurOver c (statsInnerGo c total i L g jts s) ∧
        BatchesOver c (statsInnerGo c total i L g jts s).batches := by
  intro jts
  induction jts with
  | nil => intro s h hb; exact ⟨h, hb⟩
  | cons jt rest ih =>
    intro s h hb
    have hstep := trialStep_over c [Chunk.statsHead, Chunk.wordHead i total g]
      [Chunk.statItem i jt.1 L jt.2] s h hb
    exact ih _ hstep.1 hstep.2

lemma statsGroupStep_over (c : Ctx) (total : Nat) (ig : Nat × StatGroup)
    (s : SplitState) (h : CurOver c s) (hb : BatchesOver c s.batches) :
    CurOver c (statsGroupStep c total ig s) ∧
      BatchesOver c (statsGroupStep c total ig s).batches := by
  obtain ⟨i, g⟩ := ig
  have hunit := trialStep_over c [Chunk.statsHead]
    (statUnit i total g.titles.length g) s h hb
  have hinner := statsInnerGo_over c total i g.titles.length g
    ((g.titles.drop 1).enumFrom 1) _ hunit.1 hunit.2
  have heq : statsGroupStep c total (i, g) s =
      (if i < total - 1 then
        sepTrial c (statsInnerGo c total i g.titles.length g
          ((g.titles.drop 1).enumFrom 1)
          (trialStep c [Chunk.statsHead] (statUnit i total g.titles.length g) s))
      else
        statsInnerGo c total i g.titles.length g ((g.titles.drop 1).enumFrom 1)
          (trialStep c [Chunk.statsHead] (statUnit i total g.titles.length g) s)) := rfl
  rw [heq]
  by_cases hlt : i < total - 1
  · simp only [if_pos hlt]
    refine ⟨sepTrial_over c _ hinner.1, ?_⟩
    rw [(sepTrial_trace c _).2.2]
    exact hinner.2
  · simp only [if_neg hlt]
    exact hinner

lemma statsGo_over (c : Ctx) (total : Nat) :
    ∀ (igs : List (Nat × StatGroup)) (s : SplitState),
      CurOver c s → BatchesOver c s.batches →
      CurOver c (statsGo c total igs s) ∧ BatchesOver c (statsGo c total igs s).batches := by
  intro igs
  induction igs with
  | nil => intro s h hb; exact ⟨h, hb⟩
  | cons ig rest ih =>
    intro s h hb
    have hstep := statsGroupStep_over c total ig s h hb
    exact ih _ hstep.1 hstep.2

lemma process_stats_section_over (c : Ctx) (stats : List StatGroup)
    (s : SplitState) (h : CurOver c s) (hb : BatchesOver c s.batches) :
    CurOver c (process_stats_section c stats s) ∧
      BatchesOver c (process_stats_section c stats s).batches := by
  unfold process_stats_section
  by_cases hs : stats = []
  · simp only [if_pos hs]; exact ⟨h, hb⟩
  · simp only [if_neg hs]
    have hhead := trialStep_over c [] [Chunk.statsHead] s h hb
    exact statsGo_over c stats.length stats.enum _ hhead.1 hhead.2

lemma newInnerGo_over (c : Ctx) (i : Nat) (sg : SourceGroup) :
    ∀ (jts : List (Nat × TitleItem)) (s : SplitState),
      CurOver c s → BatchesOver c s.batches →
      CurOver c (newInnerGo c i sg jts s) ∧
        BatchesOver c (newInnerGo c i sg jts s).batches := by
  intro jts
  induction jts with
  | nil => intro s h hb; exact ⟨h, hb⟩
  | cons jt rest ih =>
    intro s h hb
    have hstep := trialStep_over c [Chunk.newHead, Chunk.srcHead i sg]
      [Chunk.newItem i jt.1 jt.2] s h hb
    exact ih _ hstep.1 hstep.2

lemma newGroupStep_over (c : Ctx) (ig : Nat × SourceGroup)
    (s : SplitState) (h : CurOver c s) (hb : BatchesOver c s.batches) :
    CurOver c (newGroupStep c ig s) ∧ BatchesOver c (newGroupStep c ig s).batches := by
  obtain ⟨i, sg⟩ := ig
  have hunit := trialStep_over c [Chunk.newHead] (srcUnit i sg) s h hb
  have hinner := newInnerGo_over c i sg ((sg.titles.drop 1).enumFrom 1) _ hunit.1 hunit.2
  have heq : newGroupStep c (i, sg) s = nlStep (newInnerGo c i sg
      ((sg.titles.drop 1).enumFrom 1) (trialStep c [Chunk.newHead] (srcUnit i sg) s)) := rfl
  rw [heq]
  exact ⟨nlStep_over c _ hinner.1, hinner.2⟩

lemma newGo_over (c : Ctx) :
    ∀ (igs : List (Nat × SourceGroup)) (s : SplitState),
      CurOver c s → BatchesOver c s.batches →
      CurOver c (newGo c igs s) ∧ BatchesOver c (newGo c igs s).batches := by
  intro igs
  induction igs with
  | nil => intro s h hb; exact ⟨h, hb⟩
  | cons ig rest ih =>
    intro s h hb
    have hstep := newGroupStep_over c ig s h hb
    exact ih _ hstep.1 hstep.2

lemma process_new_titles_section_over (c : Ctx) (new_titles : List SourceGroup)
    (s : SplitState) (h : CurOver c s) (hb : BatchesOver c s.batches) :
    CurOver c (process_new_titles_section c new_titles s) ∧
      BatchesOver c (process_new_titles_section c new_titles s).batches := by
  unfold process_new_titles_section
  by_cases hs : new_titles = []
  · simp only [if_pos hs]; exact ⟨h, hb⟩
  · simp only [if_neg hs]
    have hhead := trialStep_over c [] [Chunk.newHead] s h hb
    exact newGo_over c new_titles.enum _ hhead.1 hhead.2

lemma failedGo_over (c : Ctx) :
    ∀ (ids : List Str) (s : SplitState),
      CurOver c s → BatchesOver c s.batches →
      CurOver c (failedGo c ids s) ∧ BatchesOver c (failedGo c ids s).batches := by
  intro ids
  induction ids with
  | nil => intro s h hb; exact ⟨h, hb⟩
  | cons id rest ih =>
    intro s h hb
    have hstep := trialStep_over c [Chunk.failedHead] [Chunk.failedLine id] s h hb
    exact ih _ hstep.1 hstep.2

lemma processFailed_over (c : Ctx) (ids : List Str)
    (s : SplitState) (h : CurOver c s) (hb : BatchesOver c s.batches) :
    CurOver c (processFailed c ids s) ∧
      BatchesOver c (processFailed c ids s).batches := by
  unfold processFailed
  by_cases hs : ids = []
  · simp only [if_pos hs]; exact ⟨h, hb⟩
  · simp only [if_neg hs]
    have hhead := trialStep_over c [] [Chunk.failedHead] s h hb
    exact failedGo_over c ids _ hhead.1 hhead.2

/-- Every flag-false batch of a splitter core run meets or exceeds the budget:
the cleared flag marks exactly the batches seeded with an oversized unit. -/
lemma splitCore_over (c : Ctx) (stats : List StatGroup)
    (new_titles : List SourceGroup) (failed_ids : List Str) (rev : Bool) :
    BatchesOver c (splitCore c stats new_titles failed_ids rev) := by
  unfold splitCore
  by_cases hdeg : stats = [] ∧ new_titles = [] ∧ failed_ids = []
  · rw [if_pos hdeg]
    intro p hp hpf
    simp only [List.mem_singleton] at hp
    subst hp
    simp only at hpf
    have := of_decide_eq_false hpf
    simp only [joinR_append] at this ⊢
    omega
  · rw [if_neg hdeg]
    set s0 : SplitState :=
      { current := [Chunk.base], hasContent := false, ok := true, batches := [] } with hs0
    have h0 : CurOver c s0 := by intro hok; rw [hs0] at hok; simp at hok
    have hb0 : BatchesOver c s0.batches := by intro p hp; simp [hs0] at hp
    have hout : ∀ s1 : SplitState, CurOver c s1 → BatchesOver c s1.batches →
        BatchesOver c ((processFailed c failed_ids s1).batches ++
          (if (processFailed c failed_ids s1).hasContent then
            [((processFailed c failed_ids s1).current, (processFailed c failed_ids s1).ok)]
          else [])) := by
      intro s1 h1 hb1 p hp hpf
      have hf := processFailed_over c failed_ids s1 h1 hb1
      rcases List.mem_append.1 hp with hm | hm
      · exact hf.2 p hm hpf
      · cases hhc : (processFailed c failed_ids s1).hasContent with
        | false => rw [hhc] at hm; simp at hm
        | true =>
          rw [hhc] at hm
          simp at hm
          subst hm
          exact hf.1 hpf
    by_cases hrev : rev
    · simp only [if_pos hrev]
      have h1 := process_new_titles_section_over c new_titles s0 h0 hb0
      have h2 := process_stats_section_over c stats _ h1.1 h1.2
      exact hout _ h2.1 h2.2
    · simp only [if_neg hrev]
      have h1 := process_stats_section_over c stats s0 h0 hb0
      have h2 := process_new_titles_section_over c new_titles _ h1.1 h1.2
      exact hout _ h2.1 h2.2

/-! ### Atomic pairing: group headers are always followed by an item line -/

/-- Is chunk `d` an item line of the very group that header chunk `ch` opens? -/
def headOkAfter : Chunk → Chunk → Bool
  | Chunk.wordHead i _ _, Chunk.statItem i2 _ _ _ => i == i2
  | Chunk.srcHead i _, Chunk.newItem i2 _ _ => i == i2
  | _, _ => false

/-- Every group-header chunk in the list is immediately followed by an item
line of its own group (so in particular no group header is the last chunk). -/
def adjOk : List Chunk → Bool
  | [] => true
  | [ch] => !isGroupHead ch
  | ch :: ch2 :: rest => (!isGroupHead ch || headOkAfter ch ch2) && adjOk (ch2 :: rest)

lemma adjOk_cons_cons (ch ch2 : Chunk) (rest : List Chunk) :
    adjOk (ch :: ch2 :: rest) =
      ((!isGroupHead ch || headOkAfter ch ch2) && adjOk (ch2 :: rest)) := rfl

lemma adjOk_append : ∀ {l m : List Chunk}, adjOk l = true → adjOk m = true →
    adjOk (l ++ m) = true := by
  intro l
  induction l with
  | nil => intro m _ hm; simpa using hm
  | cons ch rest ih =>
    intro m hl hm
    cases rest with
    | nil =>
      cases m with
      | nil => simpa using hl
      | cons d ds =>
        have hch : isGroupHead ch = false := by simpa [adjOk] using hl
        show adjOk (ch :: d :: ds) = true
        rw [adjOk_cons_cons, Bool.and_eq_true]
        exact ⟨by simp [hch], hm⟩
    | cons ch2 rest2 =>
      rw [adjOk_cons_cons, Bool.and_eq_true] at hl
      have hrec := ih hl.2 hm
      show adjOk (ch :: ch2 :: (rest2 ++ m)) = true
      rw [adjOk_cons_cons, Bool.and_eq_true]
      exact ⟨hl.1, hrec⟩

/-- Every already-emitted batch and the pending batch satisfy atomic pairing. -/
def AdjState (s : SplitState) : Prop :=
  adjOk s.current = true ∧ ∀ b ∈ s.batches, adjOk b.1 = true

lemma trialStep_adj (c : Ctx) (ctx add : List Chunk) (s : SplitState)
    (hca : adjOk (ctx ++ add) = true) (hadd : adjOk add = true)
    (h : AdjState s) : AdjState (trialStep c ctx add s) := by
  unfold trialStep
  by_cases hcond : c.maxBytes ≤ utf8Len (joinR c (s.current ++ add)) + utf8Len c.footer
  · simp only [if_pos hcond]
    constructor
    · show adjOk (Chunk.base :: (ctx ++ add)) = true
      have : adjOk ([Chunk.base] ++ (ctx ++ add)) = true :=
        adjOk_append (by simp [adjOk, isGroupHead]) hca
      simpa using this
    · intro b hb
      rcases List.mem_append.1 hb with h1 | h2
      · exact h.2 b h1
      · cases hhc : s.hasContent with
        | false => rw [hhc] at h2; simp at h2
        | true =>
          rw [hhc] at h2
          simp at h2
          subst h2
          exact h.1
  · simp only [if_neg hcond]
    exact ⟨adjOk_append h.1 hadd, h.2⟩

lemma sepTrial_adj (c : Ctx) (s : SplitState) (h : AdjState s) :
    AdjState (sepTrial c s) := by
  unfold sepTrial
  split
  · exact ⟨adjOk_append h.1 (by simp [adjOk, isGroupHead]), h.2⟩
  · exact h

lemma nlStep_adj (s : SplitState) (h : AdjState s) : AdjState (nlStep s) :=
  ⟨adjOk_append h.1 (by simp [adjOk, isGroupHead]), h.2⟩

lemma statsInnerGo_adj (c : Ctx) (total i L : Nat) (g : StatGroup) :
    ∀ (jts : List (Nat × TitleItem)) (s : SplitState), AdjState s →
      AdjState (statsInnerGo c total i L g jts s) := by
  intro jts
  induction jts with
  | nil => intro s h; exact h
  | cons jt rest ih =>
    intro s h
    refine ih _ (trialStep_adj c _ _ s ?_ ?_ h)
    · simp [adjOk, isGroupHead, headOkAfter]
    · simp [adjOk, isGroupHead]

lemma statsGroupStep_adj (c : Ctx) (total : Nat) (ig : Nat × StatGroup)
    (s : SplitState) (hg : ig.2.titles ≠ []) (h : AdjState s) :
    AdjState (statsGroupStep c total ig s) := by
  obtain ⟨i, g⟩ := ig
  obtain ⟨t, rest, htit⟩ : ∃ t rest, g.titles = t :: rest := by
    cases hx : g.titles with
    | nil => exact absurd hx hg
    | cons t rest => exact ⟨t, rest, rfl⟩
  have hunit : adjOk (statUnit i total g.titles.length g) = true := by
    simp [statUnit, htit, adjOk, isGroupHead, headOkAfter]
  have hca : adjOk ([Chunk.statsHead] ++ statUnit i total g.titles.length g) = true :=
    adjOk_append (by simp [adjOk, isGroupHead]) hunit
  have h1 := trialStep_adj c [Chunk.statsHead] (statUnit i total g.titles.length g) s hca hunit h
  have h2 := statsInnerGo_adj c total i g.titles.length g ((g.titles.drop 1).enumFrom 1) _ h1
  show AdjState (if i < total - 1 then sepTrial c _ else _)
  by_cases hlt : i < total - 1
  · simp only [if_pos hlt]
    exact sepTrial_adj c _ h2
  · simp only [if_neg hlt]
    exact h2

lemma statsGo_adj (c : Ctx) (total : Nat) :
    ∀ (igs : List (Nat × StatGroup)) (s : SplitState),
      (∀ ig ∈ igs, (ig : Nat × StatGroup).2.titles ≠ []) → AdjState s →
      AdjState (statsGo c total igs s) := by
  intro igs
  induction igs with
  | nil => intro s _ h; exact h
  | cons ig rest ih =>
    intro s hne h
    exact ih _ (fun x hx => hne x (List.mem_cons_of_mem _ hx))
      (statsGroupStep_adj c total ig s (hne ig (List.mem_cons_self _ _)) h)

lemma snd_mem_of_mem_enumFrom {α : Type} :
    ∀ {l : List α} {n : Nat} {x : Nat × α}, x ∈ List.enumFrom n l → x.2 ∈ l := by
  intro l
  induction l with
  | nil => intro n x hx; simp [List.enumFrom] at hx
  | cons a rest ih =>
    intro n x hx
    rcases List.mem_cons.1 hx with h | h
    · subst h; exact List.mem_cons_self _ _
    · exact List.mem_cons_of_mem _ (ih h)

lemma process_stats_section_adj (c : Ctx) (stats : List StatGroup)
    (s : SplitState) (hne : ∀ g ∈ stats, (g : StatGroup).titles ≠ [])
    (h : AdjState s) : AdjState (process_stats_section c stats s) := by
  unfold process_stats_section
  by_cases hs : stats = []
  · simp only [if_pos hs]; exact h
  · simp only [if_neg hs]
    refine statsGo_adj c stats.length stats.enum _ ?_
      (trialStep_adj c [] [Chunk.statsHead] s (by simp [adjOk, isGroupHead])
        (by simp [adjOk, isGroupHead]) h)
    intro ig hig
    exact hne ig.2 (snd_mem_of_mem_enumFrom hig)

lemma newInnerGo_adj (c : Ctx) (i : Nat) (sg : SourceGroup) :
    ∀ (jts : List (Nat × TitleItem)) (s : SplitState), AdjState s →
      AdjState (newInnerGo c i sg jts s) := by
  intro jts
  induction jts with
  | nil => intro s h; exact h
  | cons jt rest ih =>
    intro s h
    refine ih _ (trialStep_adj c _ _ s ?_ ?_ h)
    · simp [adjOk, isGroupHead, headOkAfter]
    · simp [adjOk, isGroupHead]

lemma newGroupStep_adj (c : Ctx) (ig : Nat × SourceGroup)
    (s : SplitState) (hg : ig.2.titles ≠ []) (h : AdjState s) :
    AdjState (newGroupStep c ig s) := by
  obtain ⟨i, sg⟩ := ig
  obtain ⟨t, rest, htit⟩ : ∃ t rest, sg.titles = t :: rest := by
    cases hx : sg.titles with
    | nil => exact absurd hx hg
    | cons t rest => exact ⟨t, rest, rfl⟩
  have hunit : adjOk (srcUnit i sg) = true := by
    simp [srcUnit, htit, adjOk, isGroupHead, headOkAfter]
  have hca : adjOk ([Chunk.newHead] ++ srcUnit i sg) = true :=
    adjOk_append (by simp [adjOk, isGroupHead]) hunit
  have h1 := trialStep_adj c [Chunk.newHead] (srcUnit i sg) s hca hunit h
  have h2 := newInnerGo_adj c i sg ((sg.titles.drop 1).enumFrom 1) _ h1
  exact nlStep_adj _ h2

lemma newGo_adj (c : Ctx) :
    ∀ (igs : List (Nat × SourceGroup)) (s : SplitState),
      (∀ ig ∈ igs, (ig : Nat × SourceGroup).2.titles ≠ []) → AdjState s →
      AdjState (newGo c igs s) := by
  intro igs
  induction igs with
  | nil => intro s _ h; exact h
  | cons ig rest ih =>
    intro s hne h
    exact ih _ (fun x hx => hne x (List.mem_cons_of_mem _ hx))
      (newGroupStep_adj c ig s (hne ig (List.mem_cons_self _ _)) h)

lemma process_new_titles_section_adj (c : Ctx) (new_titles : List SourceGroup)
    (s : SplitState) (hne : ∀ sg ∈ new_titles, (sg : SourceGroup).titles ≠ [])
    (h : AdjState s) : AdjState (process_new_titles_section c new_titles s) := by
  unfold process_new_titles_section
  by_cases hs : new_titles = []
  · simp only [if_pos hs]; exact h
  · simp only [if_neg hs]
    refine newGo_adj c new_titles.enum _ ?_
      (trialStep_adj c [] [Chunk.newHead] s (by simp [adjOk, isGroupHead])
        (by simp [adjOk, isGroupHead]) h)
    intro ig hig
    exact hne ig.2 (snd_mem_of_mem_enumFrom hig)

lemma failedGo_adj (c : Ctx) :
    ∀ (ids : List Str) (s : SplitState), AdjState s →
      AdjState (failedGo c ids s) := by
  intro ids
  induction ids with
  | nil => intro s h; exact h
  | cons id rest ih =>
    intro s h
    refine ih _ (trialStep_adj c _ _ s ?_ ?_ h)
    · simp [adjOk, isGroupHead]
    · simp [adjOk, isGroupHead]

lemma processFailed_adj (c : Ctx) (ids : List Str)
    (s : SplitState) (h : AdjState s) : AdjState (processFailed c ids s) := by
  unfold processFailed
  by_cases hs : ids = []
  · simp only [if_pos hs]; exact h
  · simp only [if_neg hs]
    exact failedGo_adj c ids _
      (trialStep_adj c [] [Chunk.failedHead] s (by simp [adjOk, isGroupHead])
        (by simp [adjOk, isGroupHead]) h)

/-- Every batch of a splitter core run satisfies atomic pairing, provided each
group of the pre-processed report has at least one title. -/
lemma splitCore_adj (c : Ctx) (stats : List StatGroup)
    (new_titles : List SourceGroup) (failed_ids : List Str) (rev : Bool)
    (hs : ∀ g ∈ stats, (g : StatGroup).titles ≠ [])
    (hn : ∀ sg ∈ new_titles, (sg : SourceGroup).titles ≠ []) :
    ∀ b ∈ splitCore c stats new_titles failed_ids rev, adjOk b.1 = true := by
  unfold splitCore
  by_cases hdeg : stats = [] ∧ new_titles = [] ∧ failed_ids = []
  · rw [if_pos hdeg]
    intro b hb
    simp only [List.mem_singleton] at hb
    subst hb
    simp [adjOk, isGroupHead]
  · rw [if_neg hdeg]
    set s0 : SplitState :=
      { current := [Chunk.base], hasContent := false, ok := true, batches := [] } with hs0
    have h0 : AdjState s0 := by
      constructor
      · simp [hs0, adjOk, isGroupHead]
      · intro b hb; simp [hs0] at hb
    have hout : ∀ s1 : SplitState, AdjState s1 →
        ∀ b ∈ ((processFailed c failed_ids s1).batches ++
          (if (processFailed c failed_ids s1).hasContent then
            [((processFailed c failed_ids s1).current, (processFailed c failed_ids s1).ok)]
          else [])), adjOk b.1 = true := by
      intro s1 h1 b hb
      have hf := processFailed_adj c failed_ids s1 h1
      rcases List.mem_append.1 hb with hm | hm
      · exact hf.2 b hm
      · cases hhc : (processFailed c failed_ids s1).hasContent with
        | false => rw [hhc] at hm; simp at hm
        | true =>
          rw [hhc] at hm
          simp at hm
          subst hm
          exact hf.1
    by_cases hrev : rev
    · simp only [if_pos hrev]
      exact hout _ (process_stats_section_adj c stats _ hs
        (process_new_titles_section_adj c new_titles s0 hn h0))
    · simp only [if_neg hrev]
      exact hout _ (process_new_titles_section_adj c new_titles _ hn
        (process_stats_section_adj c stats s0 hs h0))

/-! ### Non-empty batches: no batch is exactly base header + base footer -/

lemma append_ne_nil_left {a b : Str} (h : a ≠ []) : a ++ b ≠ [] := by
  intro hx
  rw [List.append_eq_nil] at hx
  exact h hx.1

lemma append_ne_nil_right {a b : Str} (h : b ≠ []) : a ++ b ≠ [] := by
  intro hx
  rw [List.append_eq_nil] at hx
  exact h hx.2

/-- The five formats for which every section header renders non-empty
(slack and bark have an empty failed-sources header, unrecognized formats
render all headers empty). -/
def FiveFormats (f : Str) : Prop :=
  f = S "wework" ∨ f = S "telegram" ∨ f = S "ntfy" ∨ f = S "feishu" ∨ f = S "dingtalk"

instance decFiveFormats (f : Str) : Decidable (FiveFormats f) := by
  unfold FiveFormats
  exact inferInstance

lemma statNewsLine_ne (ft : Str → TitleItem → Bool → Str) (fmt : Str)
    (j L : Nat) (it : TitleItem) : statNewsLine ft fmt j L it ≠ [] := by
  simp only [statNewsLine]
  repeat apply append_ne_nil_left
  decide

lemma newNewsLine_ne (ft : Str → TitleItem → Bool → Str) (fmt : Str)
    (j : Nat) (it : TitleItem) : newNewsLine ft fmt j it ≠ [] := by
  simp only [newNewsLine]
  repeat apply append_ne_nil_left
  decide

lemma failedLineStr_ne (fmt id : Str) : failedLineStr fmt id ≠ [] := by
  simp only [failedLineStr]
  split_ifs
  all_goals repeat apply append_ne_nil_left
  all_goals decide

lemma noMatchContent_ne (mode : Str) : noMatchContent mode ≠ [] := by
  simp only [noMatchContent]
  split_ifs
  all_goals repeat apply append_ne_nil_left
  all_goals decide

lemma statsHeaderStr_ne (f : Str) (hf : FiveFormats f) : statsHeaderStr f ≠ [] := by
  rcases hf with h | h | h | h | h <;> subst h <;> simp +decide only [statsHeaderStr, if_true, if_false] <;> decide

lemma wordHeaderStr_ne (f : Str) (hf : FiveFormats f) (i total : Nat) (w : Str)
    (cnt : Nat) : wordHeaderStr f i total w cnt ≠ [] := by
  rcases hf with h | h | h | h | h <;> subst h <;> simp +decide only [wordHeaderStr, if_true, if_false] <;>
    split_ifs
  all_goals repeat apply append_ne_nil_left
  all_goals decide

lemma newHeaderStr_ne (f : Str) (hf : FiveFormats f) (tnc : Nat) (hint fsep : Str) :
    newHeaderStr f tnc hint fsep ≠ [] := by
  rcases hf with h | h | h | h | h <;> subst h <;> simp +decide only [newHeaderStr, if_true, if_false]
  all_goals repeat apply append_ne_nil_left
  all_goals decide

lemma srcHeaderStr_ne (f : Str) (hf : FiveFormats f) (nm : Str) (L : Nat) :
    srcHeaderStr f nm L ≠ [] := by
  rcases hf with h | h | h | h | h <;> subst h <;> simp +decide only [srcHeaderStr, if_true, if_false]
  · repeat apply append_ne_nil_left
    decide
  · exact append_ne_nil_left (append_ne_nil_left (append_ne_nil_right (by decide)))
  · repeat apply append_ne_nil_left
    decide
  · repeat apply append_ne_nil_left
    decide
  · repeat apply append_ne_nil_left
    decide

lemma failedHeaderStr_ne (f : Str) (hf : FiveFormats f) (fsep : Str) :
    failedHeaderStr f fsep ≠ [] := by
  rcases hf with h | h | h | h | h <;> subst h <;> simp +decide only [failedHeaderStr, if_true, if_false]
  all_goals repeat apply append_ne_nil_left
  all_goals decide

@[simp] lemma joinR_cons (c : Ctx) (ch : Chunk) (l : List Chunk) :
    joinR c (ch :: l) = renderChunk c ch ++ joinR c l := by
  simp [joinR]

@[simp] lemma joinR_nil (c : Ctx) : joinR c [] = [] := rfl

/-- The pending batch is the base header when fresh, and the base header plus
non-empty content once `hasContent` holds. -/
def CurNE (c : Ctx) (s : SplitState) : Prop :=
  (s.hasContent = false → s.current = [Chunk.base]) ∧
  (s.hasContent = true → ∃ m, m ≠ [] ∧ joinR c s.current = c.baseHeader ++ m)

def BatchesNE (c : Ctx) (bs : List (List Chunk × Bool)) : Prop :=
  ∀ b ∈ bs, joinR c b.1 ++ c.footer ≠ c.baseHeader ++ c.footer

lemma flush_ne {c : Ctx} {cur : List Chunk} {m : Str} (hm : m ≠ [])
    (hj : joinR c cur = c.baseHeader ++ m) :
    joinR c cur ++ c.footer ≠ c.baseHeader ++ c.footer := by
  rw [hj]
  intro h
  have hlen := congrArg List.length h
  simp only [List.length_append] at hlen
  have : m.length = 0 := by omega
  exact hm (List.length_eq_zero.1 this)

lemma trialStep_ne (c : Ctx) (ctx add : List Chunk) (s : SplitState)
    (hadd : joinR c add ≠ []) (h : CurNE c s) (hb : BatchesNE c s.batches) :
    CurNE c (trialStep c ctx add s) ∧ BatchesNE c (trialStep c ctx add s).batches := by
  unfold trialStep
  by_cases hcond : c.maxBytes ≤ utf8Len (joinR c (s.current ++ add)) + utf8Len c.footer
  · simp only [if_pos hcond]
    constructor
    · constructor
      · intro hf; simp at hf
      · intro _
        refine ⟨joinR c (ctx ++ add), ?_, ?_⟩
        · rw [joinR_append]
          exact append_ne_nil_right hadd
        · rw [joinR_cons]
          rfl
    · intro b hbm
      rcases List.mem_append.1 hbm with h1 | h2
      · exact hb b h1
      · cases hhc : s.hasContent with
        | false => rw [hhc] at h2; simp at h2
        | true =>
          rw [hhc] at h2
          simp at h2
          subst h2
          obtain ⟨m, hm, hj⟩ := h.2 hhc
          exact flush_ne hm hj
  · simp only [if_neg hcond]
    refine ⟨⟨fun hf => by simp at hf, fun _ => ?_⟩, hb⟩
    cases hhc : s.hasContent with
    | false =>
      have hcur := h.1 hhc
      refine ⟨joinR c add, hadd, ?_⟩
      show joinR c (s.current ++ add) = _
      rw [joinR_append, hcur]
      simp [renderChunk]
    | true =>
      obtain ⟨m, hm, hj⟩ := h.2 hhc
      refine ⟨m ++ joinR c add, append_ne_nil_left hm, ?_⟩
      show joinR c (s.current ++ add) = _
      rw [joinR_append, hj, List.append_assoc]

lemma sepTrial_ne (c : Ctx) (s : SplitState) (hhc : s.hasContent = true)
    (h : CurNE c s) (hb : BatchesNE c s.batches) :
    CurNE c (sepTrial c s) ∧ BatchesNE c (sepTrial c s).batches := by
  unfold sepTrial
  split
  · constructor
    · constructor
      · intro hf
        have hf2 : s.hasContent = false := hf
        rw [hhc] at hf2
        simp at hf2
      · intro _
        obtain ⟨m, hm, hj⟩ := h.2 hhc
        refine ⟨m ++ joinR c [Chunk.sep], append_ne_nil_left hm, ?_⟩
        show joinR c (s.current ++ [Chunk.sep]) = _
        rw [joinR_append, hj, List.append_assoc]
    · exact hb
  · exact ⟨h, hb⟩

lemma nlStep_ne (c : Ctx) (s : SplitState) (hhc : s.hasContent = true)
    (h : CurNE c s) (hb : BatchesNE c s.batches) :
    CurNE c (nlStep s) ∧ BatchesNE c (nlStep s).batches := by
  constructor
  · constructor
    · intro hf
      have hf2 : s.hasContent = false := hf
      rw [hhc] at hf2
      simp at hf2
    · intro _
      obtain ⟨m, hm, hj⟩ := h.2 hhc
      refine ⟨m ++ joinR c [Chunk.nl], append_ne_nil_left hm, ?_⟩
      show joinR c (s.current ++ [Chunk.nl]) = _
      rw [joinR_append, hj, List.append_assoc]
  · exact hb

lemma trialStep_hasContent (c : Ctx) (ctx add : List Chunk) (s : SplitState) :
    (trialStep c ctx add s).hasContent = true := by
  unfold trialStep
  split <;> rfl

lemma joinR_single (c : Ctx) (ch : Chunk) : joinR c [ch] = renderChunk c ch := by
  simp

lemma statsInnerGo_ne (c : Ctx) (total i L : Nat) (g : StatGroup) :
    ∀ (jts : List (Nat × TitleItem)) (s : SplitState),
      CurNE c s → BatchesNE c s.batches →
      CurNE c (statsInnerGo c total i L g jts s) ∧
        BatchesBounded c [] ∧
        BatchesNE c (statsInnerGo c total i L g jts s).batches ∧
        (s.hasContent = true → (statsInnerGo c total i L g jts s).hasContent = true) := by
  intro jts
  induction jts with
  | nil => intro s h hb; exact ⟨h, by intro p hp; simp at hp, hb, fun hc => hc⟩
  | cons jt rest ih =>
    intro s h hb
    have hadd : joinR c [Chunk.statItem i jt.1 L jt.2] ≠ [] := by
      rw [joinR_single]
      exact statNewsLine_ne c.fmtTitle c.format_type jt.1 L jt.2
    have hstep := trialStep_ne c [Chunk.statsHead, Chunk.wordHead i total g]
      [Chunk.statItem i jt.1 L jt.2] s hadd h hb
    have hrec := ih (statsInnerStep c total i L g jt s) hstep.1 hstep.2
    exact ⟨hrec.1, hrec.2.1, hrec.2.2.1, fun _ => hrec.2.2.2 (trialStep_hasContent c _ _ s)⟩

lemma statsGroupStep_ne (c : Ctx) (total : Nat) (ig : Nat × StatGroup)
    (hwh : ∀ i total2 w cnt, wordHeaderStr c.format_type i total2 w cnt ≠ [])
    (s : SplitState) (h : CurNE c s) (hb : BatchesNE c s.batches) :
    CurNE c (statsGroupStep c total ig s) ∧
      BatchesNE c (statsGroupStep c total ig s).batches := by
  obtain ⟨i, g⟩ := ig
  have hadd : joinR c (statUnit i total g.titles.length g) ≠ [] := by
    cases htit : g.titles with
    | nil =>
      simp only [statUnit, htit]
      rw [joinR_single]
      exact hwh i total g.word g.count
    | cons t rest =>
      simp only [statUnit, htit, joinR_cons]
      exact append_ne_nil_left (hwh i total g.word g.count)
  have hunit := trialStep_ne c [Chunk.statsHead] (statUnit i total g.titles.length g) s hadd h hb
  have hinner := statsInnerGo_ne c total i g.titles.length g
    ((g.titles.drop 1).enumFrom 1) _ hunit.1 hunit.2
  have hhc := hinner.2.2.2 (trialStep_hasContent c _ _ s)
  have heq : statsGroupStep c total (i, g) s =
      (if i < total - 1 then
        sepTrial c (statsInnerGo c total i g.titles.length g
          ((g.titles.drop 1).enumFrom 1)
          (trialStep c [Chunk.statsHead] (statUnit i total g.titles.length g) s))
      else
        statsInnerGo c total i g.titles.length g ((g.titles.drop 1).enumFrom 1)
          (trialStep c [Chunk.statsHead] (statUnit i total g.titles.length g) s)) := rfl
  rw [heq]
  by_cases hlt : i < total - 1
  · simp only [if_pos hlt]
    exact sepTrial_ne c _ hhc hinner.1 hinner.2.2.1
  · simp only [if_neg hlt]
    exact ⟨hinner.1, hinner.2.2.1⟩

lemma statsGo_ne (c : Ctx) (total : Nat)
    (hwh : ∀ i total2 w cnt, wordHeaderStr c.format_type i total2 w cnt ≠ []) :
    ∀ (igs : List (Nat × StatGroup)) (s : SplitState),
      CurNE c s → BatchesNE c s.batches →
      CurNE c (statsGo c total igs s) ∧ BatchesNE c (statsGo c total igs s).batches := by
  intro igs
  induction igs with
  | nil => intro s h hb; exact ⟨h, hb⟩
  | cons ig rest ih =>
    intro s h hb
    have hstep := statsGroupStep_ne c total ig hwh s h hb
    exact ih _ hstep.1 hstep.2

lemma process_stats_section_ne (c : Ctx) (stats : List StatGroup)
    (hsh : stats ≠ [] → c.statsHeader ≠ [])
    (hwh : ∀ i total2 w cnt, wordHeaderStr c.format_type i total2 w cnt ≠ [])
    (s : SplitState) (h : CurNE c s) (hb : BatchesNE c s.batches) :
    CurNE c (process_stats_section c stats s) ∧
      BatchesNE c (process_stats_section c stats s).batches := by
  unfold process_stats_section
  by_cases hs : stats = []
  · simp only [if_pos hs]; exact ⟨h, hb⟩
  · simp only [if_neg hs]
    have hadd : joinR c [Chunk.statsHead] ≠ [] := by
      rw [joinR_single]
      exact hsh hs
    have hhead := trialStep_ne c [] [Chunk.statsHead] s hadd h hb
    exact statsGo_ne c stats.length hwh stats.enum _ hhead.1 hhead.2

lemma newInnerGo_ne (c : Ctx) (i : Nat) (sg : SourceGroup) :
    ∀ (jts : List (Nat × TitleItem)) (s : SplitState),
      CurNE c s → BatchesNE c s.batches →
      CurNE c (newInnerGo c i sg jts s) ∧
        BatchesNE c (newInnerGo c i sg jts s).batches ∧
        (s.hasContent = true → (newInnerGo c i sg jts s).hasContent = true) := by
  intro jts
  induction jts with
  | nil => intro s h hb; exact ⟨h, hb, fun hc => hc⟩
  | cons jt rest ih =>
    intro s h hb
    have hadd : joinR c [Chunk.newItem i jt.1 jt.2] ≠ [] := by
      rw [joinR_single]
      exact newNewsLine_ne c.fmtTitle c.format_type jt.1 jt.2
    have hstep := trialStep_ne c [Chunk.newHead, Chunk.srcHead i sg]
      [Chunk.newItem i jt.1 jt.2] s hadd h hb
    have hrec := ih (newInnerStep c i sg jt s) hstep.1 hstep.2
    exact ⟨hrec.1, hrec.2.1, fun _ => hrec.2.2 (trialStep_hasContent c _ _ s)⟩

lemma newGroupStep_ne (c : Ctx) (ig : Nat × SourceGroup)
    (hsrc : ∀ nm L, srcHeaderStr c.format_type nm L ≠ [])
    (s : SplitState) (h : CurNE c s) (hb : BatchesNE c s.batches) :
    CurNE c (newGroupStep c ig s) ∧ BatchesNE c (newGroupStep c ig s).batches := by
  obtain ⟨i, sg⟩ := ig
  have hadd : joinR c (srcUnit i sg) ≠ [] := by
    cases htit : sg.titles with
    | nil =>
      simp only [srcUnit, htit]
      rw [joinR_single]
      exact hsrc sg.source_name sg.titles.length
    | cons t rest =>
      simp only [srcUnit, htit, joinR_cons]
      exact append_ne_nil_left (hsrc sg.source_name sg.titles.length)
  have hunit := trialStep_ne c [Chunk.newHead] (srcUnit i sg) s hadd h hb
  have hinner := newInnerGo_ne c i sg ((sg.titles.drop 1).enumFrom 1) _ hunit.1 hunit.2
  have hhc := hinner.2.2 (trialStep_hasContent c _ _ s)
  have heq : newGroupStep c (i, sg) s = nlStep (newInnerGo c i sg
      ((sg.titles.drop 1).enumFrom 1) (trialStep c [Chunk.newHead] (srcUnit i sg) s)) := rfl
  rw [heq]
  exact nlStep_ne c _ hhc hinner.1 hinner.2.1

lemma newGo_ne (c : Ctx)
    (hsrc : ∀ nm L, srcHeaderStr c.format_type nm L ≠ []) :
    ∀ (igs : List (Nat × SourceGroup)) (s : SplitState),
      CurNE c s → BatchesNE c s.batches →
      CurNE c (newGo c igs s) ∧ BatchesNE c (newGo c igs s).batches := by
  intro igs
  induction igs with
  | nil => intro s h hb; exact ⟨h, hb⟩
  | cons ig rest ih =>
    intro s h hb
    have hstep := newGroupStep_ne c ig hsrc s h hb
    exact ih _ hstep.1 hstep.2

lemma process_new_titles_section_ne (c : Ctx) (new_titles : List SourceGroup)
    (hnh : c.newHeader ≠ [])
    (hsrc : ∀ nm L, srcHeaderStr c.format_type nm L ≠ [])
    (s : SplitState) (h : CurNE c s) (hb : BatchesNE c s.batches) :
    CurNE c (process_new_titles_section c new_titles s) ∧
      BatchesNE c (process_new_titles_section c new_titles s).batches := by
  unfold process_new_titles_section
  by_cases hs : new_titles = []
  · simp only [if_pos hs]; exact ⟨h, hb⟩
  · simp only [if_neg hs]
    have hadd : joinR c [Chunk.newHead] ≠ [] := by
      rw [joinR_single]
      exact hnh
    have hhead := trialStep_ne c [] [Chunk.newHead] s hadd h hb
    exact newGo_ne c hsrc new_titles.enum _ hhead.1 hhead.2

lemma failedGo_ne (c : Ctx) :
    ∀ (ids : List Str) (s : SplitState),
      CurNE c s → BatchesNE c s.batches →
      CurNE c (failedGo c ids s) ∧ BatchesNE c (failedGo c ids s).batches := by
  intro ids
  induction ids with
  | nil => intro s h hb; exact ⟨h, hb⟩
  | cons id rest ih =>
    intro s h hb
    have hadd : joinR c [Chunk.failedLine id] ≠ [] := by
      rw [joinR_single]
      exact failedLineStr_ne c.format_type id
    have hstep := trialStep_ne c [Chunk.failedHead] [Chunk.failedLine id] s hadd h hb
    exact ih _ hstep.1 hstep.2

lemma processFailed_ne (c : Ctx) (ids : List Str) (hfh : c.failedHeader ≠ [])
    (s : SplitState) (h : CurNE c s) (hb : BatchesNE c s.batches) :
    CurNE c (processFailed c ids s) ∧ BatchesNE c (processFailed c ids s).batches := by
  unfold processFailed
  by_cases hs : ids = []
  · simp only [if_pos hs]; exact ⟨h, hb⟩
  · simp only [if_neg hs]
    have hadd : joinR c [Chunk.failedHead] ≠ [] := by
      rw [joinR_single]
      exact hfh
    have hhead := trialStep_ne c [] [Chunk.failedHead] s hadd h hb
    exact failedGo_ne c ids _ hhead.1 hhead.2

/-- No batch of a splitter core run renders exactly base header + footer,
provided the section headers of the format render non-empty. -/
lemma splitCore_ne (c : Ctx) (stats : List StatGroup)
    (new_titles : List SourceGroup) (failed_ids : List Str) (rev : Bool)
    (hsh : stats ≠ [] → c.statsHeader ≠ [])
    (hwh : ∀ i total2 w cnt, wordHeaderStr c.format_type i total2 w cnt ≠ [])
    (hnh : c.newHeader ≠ [])
    (hsrc : ∀ nm L, srcHeaderStr c.format_type nm L ≠ [])
    (hfh : c.failedHeader ≠ [])
    (hnm : c.noMatchStr ≠ []) :
    BatchesNE c (splitCore c stats new_titles failed_ids rev) := by
  unfold splitCore
  by_cases hdeg : stats = [] ∧ new_titles = [] ∧ failed_ids = []
  · rw [if_pos hdeg]
    intro b hb
    simp only [List.mem_singleton] at hb
    subst hb
    refine flush_ne hnm ?_
    simp [renderChunk]
  · rw [if_neg hdeg]
    set s0 : SplitState :=
      { current := [Chunk.base], hasContent := false, ok := true, batches := [] } with hs0
    have h0 : CurNE c s0 := by
      constructor
      · intro _; rfl
      · intro hf; rw [hs0] at hf; simp at hf
    have hb0 : BatchesNE c s0.batches := by intro b hb; simp [hs0] at hb
    have hout : ∀ s1 : SplitState, CurNE c s1 → BatchesNE c s1.batches →
        BatchesNE c ((processFailed c failed_ids s1).batches ++
          (if (processFailed c failed_ids s1).hasContent then
            [((processFailed c failed_ids s1).current, (processFailed c failed_ids s1).ok)]
          else [])) := by
      intro s1 h1 hb1 b hb
      have hf := processFailed_ne c failed_ids hfh s1 h1 hb1
      rcases List.mem_append.1 hb with hm | hm
      · exact hf.2 b hm
      · cases hhc : (processFailed c failed_ids s1).hasContent with
        | false => rw [hhc] at hm; simp at hm
        | true =>
          rw [hhc] at hm
          simp at hm
          subst hm
          obtain ⟨m, hmne, hj⟩ := hf.1.2 hhc
          exact flush_ne hmne hj
    by_cases hrev : rev
    · simp only [if_pos hrev]
      have h1 := process_new_titles_section_ne c new_titles hnh hsrc s0 h0 hb0
      have h2 := process_stats_section_ne c stats hsh hwh _ h1.1 h1.2
      exact hout _ h2.1 h2.2
    · simp only [if_neg hrev]
      have h1 := process_stats_section_ne c stats hsh hwh s0 h0 hb0
      have h2 := process_new_titles_section_ne c new_titles hnh hsrc _ h1.1 h1.2
      exact hout _ h2.1 h2.2

/-! ### Truncation properties -/

def countStatItems (l : List StatGroup) : Nat := (l.map (fun g => g.titles.length)).sum

def countSrcItems (l : List SourceGroup) : Nat := (l.map (fun sg => sg.titles.length)).sum

lemma truncateStats_le (maxT : Nat) :
    ∀ (gs : List StatGroup) (cnt : Nat), cnt ≤ maxT → (truncateStats maxT cnt gs).1 ≤ maxT := by
  intro gs
  induction gs with
  | nil => intro cnt h; simpa [truncateStats] using h
  | cons g rest ih =>
    intro cnt h
    rw [truncateStats]
    by_cases hc : maxT ≤ cnt
    · simpa [hc] using h
    · simp only [if_neg hc]
      by_cases ht : g.titles.take (maxT - cnt) = []
      · simp only [if_pos ht]
        exact ih cnt h
      · simp only [if_neg ht]
        refine ih (cnt + (g.titles.take (maxT - cnt)).length) ?_
        have := List.length_take_le (maxT - cnt) g.titles
        omega

lemma truncateStats_count (maxT : Nat) :
    ∀ (gs : List StatGroup) (cnt : Nat),
      (truncateStats maxT cnt gs).1 = cnt + countStatItems (truncateStats maxT cnt gs).2 := by
  intro gs
  induction gs with
  | nil => intro cnt; simp [truncateStats, countStatItems]
  | cons g rest ih =>
    intro cnt
    rw [truncateStats]
    by_cases hc : maxT ≤ cnt
    · simp [hc, countStatItems]
    · simp only [if_neg hc]
      by_cases ht : g.titles.take (maxT - cnt) = []
      · simp only [if_pos ht]
        exact ih cnt
      · simp only [if_neg ht]
        have := ih (cnt + (g.titles.take (maxT - cnt)).length)
        simp only [countStatItems, List.map_cons, List.sum_cons] at this ⊢
        omega

lemma truncateStats_props (maxT : Nat) :
    ∀ (gs : List StatGroup) (cnt : Nat),
      ∀ g2 ∈ (truncateStats maxT cnt gs).2, ∃ g ∈ gs, g2.word = g.word ∧
        (∃ k, g2.titles = g.titles.take k) ∧ g2.titles ≠ [] ∧
        g2.count = g2.titles.length := by
  intro gs
  induction gs with
  | nil => intro cnt g2 h; simp [truncateStats] at h
  | cons g rest ih =>
    intro cnt g2 h
    rw [truncateStats] at h
    by_cases hc : maxT ≤ cnt
    · simp [hc] at h
    · simp only [if_neg hc] at h
      by_cases ht : g.titles.take (maxT - cnt) = []
      · simp only [if_pos ht] at h
        obtain ⟨g3, hg3, hp⟩ := ih cnt g2 h
        exact ⟨g3, List.mem_cons_of_mem _ hg3, hp⟩
      · simp only [if_neg ht] at h
        rcases List.mem_cons.1 h with heq | hmem
        · subst heq
          exact ⟨g, List.mem_cons_self _ _, rfl, ⟨maxT - cnt, rfl⟩, ht, rfl⟩
        · obtain ⟨g3, hg3, hp⟩ := ih _ g2 hmem
          exact ⟨g3, List.mem_cons_of_mem _ hg3, hp⟩

lemma truncateSources_le (maxT : Nat) :
    ∀ (gs : List SourceGroup) (cnt : Nat), cnt ≤ maxT →
      (truncateSources maxT cnt gs).1 ≤ maxT := by
  intro gs
  induction gs with
  | nil => intro cnt h; simpa [truncateSources] using h
  | cons sg rest ih =>
    intro cnt h
    rw [truncateSources]
    by_cases hc : maxT ≤ cnt
    · simpa [hc] using h
    · simp only [if_neg hc]
      by_cases ht : sg.titles.take (maxT - cnt) = []
      · simp only [if_pos ht]
        exact ih cnt h
      · simp only [if_neg ht]
        refine ih (cnt + (sg.titles.take (maxT - cnt)).length) ?_
        have := List.length_take_le (maxT - cnt) sg.titles
        omega

lemma truncateSources_count (maxT : Nat) :
    ∀ (gs : List SourceGroup) (cnt : Nat),
      (truncateSources maxT cnt gs).1 = cnt + countSrcItems (truncateSources maxT cnt gs).2 := by
  intro gs
  induction gs with
  | nil => intro cnt; simp [truncateSources, countSrcItems]
  | cons sg rest ih =>
    intro cnt
    rw [truncateSources]
    by_cases hc : maxT ≤ cnt
    · simp [hc, countSrcItems]
    · simp only [if_neg hc]
      by_cases ht : sg.titles.take (maxT - cnt) = []
      · simp only [if_pos ht]
        exact ih cnt
      · simp only [if_neg ht]
        have := ih (cnt + (sg.titles.take (maxT - cnt)).length)
        simp only [countSrcItems, List.map_cons, List.sum_cons] at this ⊢
        omega

lemma truncateSources_props (maxT : Nat) :
    ∀ (gs : List SourceGroup) (cnt : Nat),
      ∀ sg2 ∈ (truncateSources maxT cnt gs).2, ∃ sg ∈ gs, sg2.source_name = sg.source_name ∧
        (∃ k, sg2.titles = sg.titles.take k) ∧ sg2.titles ≠ [] := by
  intro gs
  induction gs with
  | nil => intro cnt sg2 h; simp [truncateSources] at h
  | cons sg rest ih =>
    intro cnt sg2 h
    rw [truncateSources] at h
    by_cases hc : maxT ≤ cnt
    · simp [hc] at h
    · simp only [if_neg hc] at h
      by_cases ht : sg.titles.take (maxT - cnt) = []
      · simp only [if_pos ht] at h
        obtain ⟨g3, hg3, hp⟩ := ih cnt sg2 h
        exact ⟨g3, List.mem_cons_of_mem _ hg3, hp⟩
      · simp only [if_neg ht] at h
        rcases List.mem_cons.1 h with heq | hmem
        · subst heq
          exact ⟨sg, List.mem_cons_self _ _, rfl, ⟨maxT - cnt, rfl⟩, ht⟩
        · obtain ⟨g3, hg3, hp⟩ := ih _ sg2 hmem
          exact ⟨g3, List.mem_cons_of_mem _ hg3, hp⟩

/-- All groups of the splitter's pre-processed report have a non-empty title
list, provided the raw report's groups do. -/
lemma preprocessSplit_nonempty (r : ReportData) (maxT : Nat) (ss : Bool)
    (hs : ∀ g ∈ r.stats, (g : StatGroup).titles ≠ [])
    (hn : ∀ sg ∈ r.new_titles, (sg : SourceGroup).titles ≠ []) :
    (∀ g ∈ (preprocessSplit r maxT ss).1, (g : StatGroup).titles ≠ []) ∧
      (∀ sg ∈ (preprocessSplit r maxT ss).2, (sg : SourceGroup).titles ≠ []) := by
  unfold preprocessSplit
  by_cases hM : 0 < maxT
  · simp only [if_pos hM]
    constructor
    · intro g hg
      by_cases hss : ss
      · simp only [if_pos hss] at hg
        obtain ⟨_, _, _, _, hne, _⟩ := truncateStats_props maxT r.stats 0 g hg
        exact hne
      · simp only [if_neg hss] at hg
        simp at hg
    · intro sg hsg
      obtain ⟨_, _, _, _, hne⟩ := truncateSources_props maxT r.new_titles _ sg hsg
      exact hne
  · simp only [if_neg hM]
    constructor
    · intro g hg
      by_cases hss : ss
      · simp only [if_pos hss] at hg
        exact hs g hg
      · simp only [if_neg hss] at hg
        simp at hg
    · exact hn

/-! ### Heap model of the defensive item copy

The only writes this subsystem ever performs on title records are
`title_data_copy = title_data.copy()` followed by
`title_data_copy["is_new"] = False` — splitter.py lines 468-469 and 517-518,
renderer.py lines 155-156 and 362-363.  To make the mutation discipline
expressible, title records are placed in an explicit heap (a list of cells
addressed by index); `.copy()` allocates a fresh cell and the flag write hits
only that fresh cell.  `newGroupLinesHeap` is the heap-level embedding of the
new-items per-group item loop shared (up to platform markup) by all three
functions; it computes the same line strings as the pure `newNewsLine` used
by the splitter embedding. -/

abbrev ItemHeap := List TitleItem

def heapGet (h : ItemHeap) (r : Nat) : TitleItem := (h[r]?).getD default

/-- Python `title_data.copy()`: allocate a fresh cell holding the same record;
returns the fresh reference. -/
def pyCopy (h : ItemHeap) (r : Nat) : Nat × ItemHeap :=
  (h.length, h ++ [heapGet h r])

/-- Python `d["is_new"] = b`: write through a reference. -/
def pySetIsNew (h : ItemHeap) (r : Nat) (b : Bool) : ItemHeap :=
  h.set r { heapGet h r with is_new := b }

/-- splitter.py lines 515-543 body (and lines 464-494 with `j = 0`;
renderer.py lines 153-160 and 360-367 are the same copy-reset-format step):
copy the item, clear `is_new` on the copy, format. -/
def newNewsLineHeap (ft : Str → TitleItem → Bool → Str) (fmt : Str) (j : Nat)
    (h : ItemHeap) (r : Nat) : Str × ItemHeap :=
  let pc := pyCopy h r
  let h2 := pySetIsNew pc.2 pc.1 false
  let copy := heapGet h2 pc.1
  let formatted :=
    match (if j = 0 then newFirstPlatform fmt else newRestPlatform fmt) with
    | some p => ft p copy false
    | none => copy.title
  (S "  " ++ natStr (j + 1) ++ S ". " ++ formatted ++ S "\n", h2)

/-- The per-group loop over (index, item-reference) pairs, threading the heap. -/
def newGroupLinesHeap (ft : Str → TitleItem → Bool → Str) (fmt : Str) :
    List (Nat × Nat) → ItemHeap → List Str × ItemHeap
  | [], h => ([], h)
  | jr :: rest, h =>
    let p := newNewsLineHeap ft fmt jr.1 h jr.2
    let q := newGroupLinesHeap ft fmt rest p.2
    (p.1 :: q.1, q.2)

lemma newNewsLineHeap_frame (ft : Str → TitleItem → Bool → Str) (fmt : Str)
    (j : Nat) (h : ItemHeap) (r : Nat) :
    (∀ i < h.length, heapGet (newNewsLineHeap ft fmt j h r).2 i = heapGet h i) ∧
      h.length < (newNewsLineHeap ft fmt j h r).2.length := by
  constructor
  · intro i hi
    show heapGet (pySetIsNew (h ++ [heapGet h r]) h.length false) i = heapGet h i
    unfold pySetIsNew heapGet
    rw [List.getElem?_set_ne (by omega)]
    rw [List.getElem?_append, if_pos hi]
  · show h.length < (pySetIsNew (h ++ [heapGet h r]) h.length false).length
    simp [pySetIsNew]

lemma newNewsLineHeap_line (ft : Str → TitleItem → Bool → Str) (fmt : Str)
    (j : Nat) (h : ItemHeap) (r : Nat) :
    (newNewsLineHeap ft fmt j h r).1 = newNewsLine ft fmt j (heapGet h r) := by
  have hAB : heapGet (h ++ [heapGet h r]) h.length = heapGet h r := by
    unfold heapGet
    rw [List.getElem?_append_right (Nat.le_refl _)]
    simp
  have hcell : heapGet (pySetIsNew (h ++ [heapGet h r]) h.length false) h.length =
      { heapGet h r with is_new := false } := by
    unfold pySetIsNew
    rw [hAB]
    unfold heapGet
    rw [List.getElem?_set_eq_of_lt _ (by simp)]
    simp
  simp only [newNewsLineHeap, pyCopy]
  rw [hcell]
  rfl

lemma newGroupLinesHeap_frame (ft : Str → TitleItem → Bool → Str) (fmt : Str) :
    ∀ (jrs : List (Nat × Nat)) (h : ItemHeap),
      (∀ i < h.length, heapGet (newGroupLinesHeap ft fmt jrs h).2 i = heapGet h i) ∧
        h.length ≤ (newGroupLinesHeap ft fmt jrs h).2.length := by
  intro jrs
  induction jrs with
  | nil => intro h; exact ⟨fun i _ => rfl, Nat.le_refl _⟩
  | cons jr rest ih =>
    intro h
    have h1 := newNewsLineHeap_frame ft fmt jr.1 h jr.2
    have h2 := ih (newNewsLineHeap ft fmt jr.1 h jr.2).2
    constructor
    · intro i hi
      show heapGet (newGroupLinesHeap ft fmt rest (newNewsLineHeap ft fmt jr.1 h jr.2).2).2 i =
        heapGet h i
      rw [h2.1 i (by have := h1.2; omega), h1.1 i hi]
    · show h.length ≤ (newGroupLinesHeap ft fmt rest (newNewsLineHeap ft fmt jr.1 h jr.2).2).2.length
      have := h1.2
      have := h2.2
      omega

lemma newGroupLinesHeap_lines (ft : Str → TitleItem → Bool → Str) (fmt : Str) :
    ∀ (jrs : List (Nat × Nat)) (h : ItemHeap),
      (∀ jr ∈ jrs, (jr : Nat × Nat).2 < h.length) →
      (newGroupLinesHeap ft fmt jrs h).1 =
        jrs.map (fun jr => newNewsLine ft fmt jr.1 (heapGet h jr.2)) := by
  intro jrs
  induction jrs with
  | nil => intro h _; rfl
  | cons jr rest ih =>
    intro h hlt
    have h1 := newNewsLineHeap_frame ft fmt jr.1 h jr.2
    show (newNewsLineHeap ft fmt jr.1 h jr.2).1 ::
      (newGroupLinesHeap ft fmt rest (newNewsLineHeap ft fmt jr.1 h jr.2).2).1 = _
    rw [newNewsLineHeap_line]
    rw [ih (newNewsLineHeap ft fmt jr.1 h jr.2).2
      (fun x hx => by have := hlt x (List.mem_cons_of_mem _ hx); have := h1.2; omega)]
    simp only [List.map_cons]
    congr 1
    apply List.map_congr_left
    intro x hx
    rw [h1.1 x.2 (hlt x (List.mem_cons_of_mem _ hx))]

/-! ### The claims -/

/-- A concrete title formatter used by witnesses and counterexamples (the real
`format_title_for_platform` is an external collaborator; every theorem above
holds for an arbitrary formatter). -/
def exFmtTitle : Str → TitleItem → Bool → Str := fun p it srcFlag =>
  it.title ++ (if srcFlag then S "|" ++ it.source else []) ++ S "<" ++ p ++ S ">"

/-- C1: Completeness and order preservation of the splitter — across all
emitted batches, the item lines (what remains after stripping the per-batch
base header, base footer, re-emitted section/group headers, separators and
the failed-sources lines) are exactly the (group, item) pairs of the
pre-processed report, each exactly once, groups and items in input order,
with the two sections ordered by `reverse_content_order`. -/
theorem claim_C1 (a : SplitArgs) :
    outputItems (splitAux a).2 =
      (if a.reverse_content_order then
        newTrace (splitPre a).2 ++ statTrace (splitPre a).1
      else
        statTrace (splitPre a).1 ++ newTrace (splitPre a).2) :=
  splitAux_items a

/-- C2: Budget bound — every batch emitted by the splitter whose ghost flag
is set (i.e. whose content was committed by a successful trial append, or
seeded by a unit that fit the fresh batch) has UTF-8 length, footer included,
at most the effective byte budget; this includes the batches that absorbed
the unchecked per-source-group newline append.  Conversely a batch whose
flag is cleared — one seeded with an oversized atomic unit that never fit —
meets or exceeds the budget, so the flag marks exactly the exempted
oversized batches. -/
theorem claim_C2 (a : SplitArgs) (p : List Chunk × Bool)
    (hp : p ∈ (splitAux a).2) :
    (p.2 = true →
      utf8Len (batchString (splitAux a).1 p) ≤ (splitAux a).1.maxBytes) ∧
    (p.2 = false →
      (splitAux a).1.maxBytes ≤ utf8Len (batchString (splitAux a).1 p)) := by
  constructor
  · intro hflag
    have hb := splitCore_bounded (mkCtx a) (splitPre a).1 (splitPre a).2
      a.report_data.failed_ids a.reverse_content_order p hp hflag
    show utf8Len (joinR (mkCtx a) p.1 ++ (mkCtx a).footer) ≤ (mkCtx a).maxBytes
    rw [utf8Len_append]
    exact hb
  · intro hflag
    have hb := splitCore_over (mkCtx a) (splitPre a).1 (splitPre a).2
      a.report_data.failed_ids a.reverse_content_order p hp hflag
    show (mkCtx a).maxBytes ≤ utf8Len (joinR (mkCtx a) p.1 ++ (mkCtx a).footer)
    rw [utf8Len_append]
    exact hb

def exC2report : ReportData :=
  { stats := [], new_titles := [], failed_ids := [], total_new_count := 0 }

def exC2 : SplitArgs :=
  { report_data := exC2report, format_type := S "telegram", fmtTitle := exFmtTitle }

theorem claim_C2_witness :
    (([Chunk.base, Chunk.noMatch], true) ∈ (splitAux exC2).2) ∧
      utf8Len (batchString (splitAux exC2).1 ([Chunk.base, Chunk.noMatch], true)) ≤
        (splitAux exC2).1.maxBytes :=
  ⟨by decide, (claim_C2 exC2 ([Chunk.base, Chunk.noMatch], true) (by decide)).1 rfl⟩

def exC3report : ReportData :=
  { stats := [{ word := S "w", count := 0, titles := [] }],
    new_titles := [], failed_ids := [], total_new_count := 0 }

def exC3 : SplitArgs :=
  { report_data := exC3report, format_type := S "wework", fmtTitle := exFmtTitle }

/-- C3, counterexample: with a stats group whose `titles` list is empty (the
data model admits groups with `count = 0`), the splitter emits the word-group
header with no item line after it, refuting "every group header that appears
in any emitted batch is immediately followed in that same batch by at least
one item line of that group" for unrestricted inputs. -/
theorem claim_C3_counterexample :
    ¬ (∀ b ∈ (splitAux exC3).2, adjOk b.1 = true) := by decide

/-- C3, amended: for every report in which every stats group and every
news-source group has at least one title, every group header chunk in every
emitted batch is immediately followed in the same batch by an item line of
that same group (so no batch ends with a group header whose first item was
deferred to a later batch). -/
theorem claim_C3 (a : SplitArgs)
    (hs : ∀ g ∈ a.report_data.stats, (g : StatGroup).titles ≠ [])
    (hn : ∀ sg ∈ a.report_data.new_titles, (sg : SourceGroup).titles ≠ []) :
    ∀ b ∈ (splitAux a).2, adjOk b.1 = true := by
  have hpre := preprocessSplit_nonempty a.report_data a.max_total_news_in_push
    a.show_stats_in_push hs hn
  exact splitCore_adj (mkCtx a) (splitPre a).1 (splitPre a).2
    a.report_data.failed_ids a.reverse_content_order hpre.1 hpre.2

def exItem : TitleItem := { title := S "t", source := S "s", is_new := true }

def exC3wReport : ReportData :=
  { stats := [{ word := S "w", count := 1, titles := [exItem] }],
    new_titles := [{ source_name := S "zh", titles := [exItem] }],
    failed_ids := [], total_new_count := 1 }

def exC3w : SplitArgs :=
  { report_data := exC3wReport, format_type := S "wework", fmtTitle := exFmtTitle }

theorem claim_C3_witness :
    (∀ g ∈ exC3wReport.stats, (g : StatGroup).titles ≠ []) ∧
      ∀ b ∈ (splitAux exC3w).2, adjOk b.1 = true :=
  ⟨by decide, claim_C3 exC3w (by decide) (by decide)⟩

def exC4report : ReportData :=
  { stats := [{ word := S "w", count := 1, titles := [exItem] }],
    new_titles := [], failed_ids := [], total_new_count := 0 }

def exC4 : SplitArgs :=
  { report_data := exC4report, format_type := S "telegram",
    show_stats_in_push := false, fmtTitle := exFmtTitle }

/-- C4, counterexample: with `show_stats_in_push = false` and a non-empty
stats list, the splitter does NOT flatten the statistic items into a
synthetic source group — its pre-processed `new_titles` stays empty and no
item line at all appears in its output, refuting "the flattened items still
appear in the splitter's output". -/
theorem claim_C4_counterexample :
    exC4.show_stats_in_push = false ∧ exC4.report_data.stats ≠ [] ∧
      (splitPre exC4).2 = [] ∧ outputItems (splitAux exC4).2 = [] := by decide

/-- C4, amended: the flattening of suppressed statistics into a single
synthetic source group (sentinel source name, prepended to `new_titles`)
happens only in the renderers; the splitter instead drops the statistic items
entirely when `show_stats_in_push` is false — its pre-processed stats are
empty and its output items are exactly the new-titles items. -/
theorem claim_C4 :
    (∀ a : SplitArgs, a.show_stats_in_push = false →
      (splitPre a).1 = [] ∧ outputItems (splitAux a).2 = newTrace (splitPre a).2) ∧
    (∀ r : ReportData, r.stats ≠ [] →
      (rendererAllNewTitles r false).1 =
        { source_name := flattenedSentinel,
          titles := (r.stats.map (fun g => g.titles)).flatten } :: r.new_titles) := by
  constructor
  · intro a hss
    have h1 : (splitPre a).1 = [] := by
      unfold splitPre preprocessSplit
      rw [hss]
      by_cases hM : 0 < a.max_total_news_in_push
      · simp [hM]
      · simp [hM]
    refine ⟨h1, ?_⟩
    have h2 := splitAux_items a
    rw [h1] at h2
    rw [h2]
    cases a.reverse_content_order <;> simp [statTrace]
  · intro r hr
    unfold rendererAllNewTitles
    rw [if_pos ⟨rfl, hr⟩]
    rfl

theorem claim_C4_witness :
    ((splitPre exC4).1 = [] ∧ outputItems (splitAux exC4).2 = newTrace (splitPre exC4).2) ∧
      (rendererAllNewTitles exC4report false).1 =
        { source_name := flattenedSentinel,
          titles := (exC4report.stats.map (fun g => g.titles)).flatten } :: exC4report.new_titles :=
  ⟨claim_C4.1 exC4 rfl, claim_C4.2 exC4report (by decide)⟩

lemma trunc_pair_cap (maxT : Nat) (hM : 0 < maxT) (stats : List StatGroup)
    (news : List SourceGroup) (ss : Bool) :
    countStatItems (if ss then truncateStats maxT 0 stats else (0, [])).2 +
      countSrcItems (truncateSources maxT
        (if ss then truncateStats maxT 0 stats else (0, [])).1 news).2 ≤ maxT := by
  have hp1 : (if ss then truncateStats maxT 0 stats else ((0, []) : Nat × List StatGroup)).1 ≤ maxT := by
    cases ss with
    | false => simpa using Nat.le_of_lt hM
    | true =>
      simp only [if_pos]
      exact truncateStats_le maxT stats 0 (Nat.zero_le _)
  have hpc : (if ss then truncateStats maxT 0 stats else ((0, []) : Nat × List StatGroup)).1 =
      countStatItems (if ss then truncateStats maxT 0 stats else ((0, []) : Nat × List StatGroup)).2 := by
    cases ss with
    | false => simp [countStatItems]
    | true =>
      simp only [if_pos]
      have := truncateStats_count maxT stats 0
      omega
  have hq1 := truncateSources_le maxT news _ hp1
  have hqc := truncateSources_count maxT news
    (if ss then truncateStats maxT 0 stats else ((0, []) : Nat × List StatGroup)).1
  omega

/-- C5: Truncation cap and prefix semantics, for both the splitter's and the
renderers' pre-processing: for a positive global budget `maxT`, the total
number of retained items across stats groups and new-title groups is at most
`maxT`; every retained group carries the word/source name of an input group,
its titles are a prefix of that input group's titles, and no retained group
is empty (groups emptied by truncation are omitted). -/
theorem claim_C5 (r : ReportData) (maxT : Nat) (ss : Bool) (hM : 0 < maxT) :
    (countStatItems (preprocessSplit r maxT ss).1 +
       countSrcItems (preprocessSplit r maxT ss).2 ≤ maxT) ∧
    (countStatItems (preprocessRenderer r maxT ss).1 +
       countSrcItems (preprocessRenderer r maxT ss).2 ≤ maxT) ∧
    (∀ g2 ∈ (preprocessSplit r maxT ss).1, ∃ g ∈ r.stats, g2.word = g.word ∧
      (∃ k, g2.titles = g.titles.take k) ∧ g2.titles ≠ []) ∧
    (∀ sg2 ∈ (preprocessSplit r maxT ss).2, ∃ sg ∈ r.new_titles,
      sg2.source_name = sg.source_name ∧ (∃ k, sg2.titles = sg.titles.take k) ∧
      sg2.titles ≠ []) ∧
    (∀ g2 ∈ (preprocessRenderer r maxT ss).1, ∃ g ∈ r.stats, g2.word = g.word ∧
      (∃ k, g2.titles = g.titles.take k) ∧ g2.titles ≠ []) ∧
    (∀ sg2 ∈ (preprocessRenderer r maxT ss).2, ∃ sg ∈ (rendererAllNewTitles r ss).1,
      sg2.source_name = sg.source_name ∧ (∃ k, sg2.titles = sg.titles.take k) ∧
      sg2.titles ≠ []) := by
  have hps : preprocessSplit r maxT ss =
      ((if ss then truncateStats maxT 0 r.stats else (0, [])).2,
       (truncateSources maxT (if ss then truncateStats maxT 0 r.stats else (0, [])).1
         r.new_titles).2) := by
    unfold preprocessSplit
    rw [if_pos hM]
  have hpr : preprocessRenderer r maxT ss =
      ((if ss then truncateStats maxT 0 r.stats else (0, [])).2,
       (truncateSources maxT (if ss then truncateStats maxT 0 r.stats else (0, [])).1
         (rendererAllNewTitles r ss).1).2) := by
    unfold preprocessRenderer
    rw [if_pos hM]
  refine ⟨?_, ?_, ?_, ?_, ?_, ?_⟩
  · rw [hps]
    exact trunc_pair_cap maxT hM r.stats r.new_titles ss
  · rw [hpr]
    exact trunc_pair_cap maxT hM r.stats (rendererAllNewTitles r ss).1 ss
  · rw [hps]
    intro g2 hg2
    cases ss with
    | false => simp at hg2
    | true =>
      simp only [if_pos] at hg2
      obtain ⟨g, hg, hw, hk, hne, _⟩ := truncateStats_props maxT r.stats 0 g2 hg2
      exact ⟨g, hg, hw, hk, hne⟩
  · rw [hps]
    intro sg2 hsg2
    exact truncateSources_props maxT r.new_titles _ sg2 hsg2
  · rw [hpr]
    intro g2 hg2
    cases ss with
    | false => simp at hg2
    | true =>
      simp only [if_pos] at hg2
      obtain ⟨g, hg, hw, hk, hne, _⟩ := truncateStats_props maxT r.stats 0 g2 hg2
      exact ⟨g, hg, hw, hk, hne⟩
  · rw [hpr]
    intro sg2 hsg2
    exact truncateSources_props maxT (rendererAllNewTitles r ss).1 _ sg2 hsg2

def exC5report : ReportData :=
  { stats := [{ word := S "w", count := 3, titles := [exItem, exItem, exItem] },
              { word := S "v", count := 3, titles := [exItem, exItem, exItem] }],
    new_titles := [{ source_name := S "zh", titles := [exItem] }],
    failed_ids := [], total_new_count := 1 }

theorem claim_C5_witness :
    0 < 2 ∧ countStatItems (preprocessSplit exC5report 2 true).1 +
      countSrcItems (preprocessSplit exC5report 2 true).2 ≤ 2 :=
  ⟨by decide, (claim_C5 exC5report 2 true (by decide)).1⟩

def exC6report : ReportData :=
  { stats := [], new_titles := [], failed_ids := [S "x"], total_new_count := 0 }

def exC6 : SplitArgs :=
  { report_data := exC6report, format_type := S "slack", max_bytes := some 42,
    nowStr := S "T", fmtTitle := exFmtTitle }

/-- C6, counterexample: for the `slack` format (whose failed-sources section
header is the empty string), with only failed ids and a budget that fits the
bare header+footer but not the first failed line, the splitter emits a first
batch that is exactly the base header concatenated with the base footer —
and it is not the degenerate "no matches" batch, since `failed_ids` is
non-empty. -/
theorem claim_C6_counterexample :
    exC6.report_data.failed_ids ≠ [] ∧
      (split_content_into_batches exC6).head? =
        some ((splitAux exC6).1.baseHeader ++ (splitAux exC6).1.footer) := by decide

/-- C6, amended: for the formats `wework`, `telegram`, `ntfy`, `feishu` and
`dingtalk` — those whose section headers all render non-empty — no emitted
batch at all (the degenerate batch included) equals exactly the base header
concatenated with the base footer.  For `slack` and `bark` the empty
failed-sources header makes the property fail, as the counterexample shows. -/
theorem claim_C6 (a : SplitArgs) (hf : FiveFormats a.format_type) :
    ∀ s ∈ split_content_into_batches a,
      s ≠ (splitAux a).1.baseHeader ++ (splitAux a).1.footer := by
  intro s hsin
  obtain ⟨b, hb, rfl⟩ := List.mem_map.1 hsin
  have hne := splitCore_ne (mkCtx a) (splitPre a).1 (splitPre a).2
    a.report_data.failed_ids a.reverse_content_order
    (fun hne2 => by
      show (if (splitPre a).1 = [] then [] else statsHeaderStr a.format_type) ≠ []
      rw [if_neg hne2]
      exact statsHeaderStr_ne _ hf)
    (fun i total2 w cnt => wordHeaderStr_ne _ hf i total2 w cnt)
    (newHeaderStr_ne _ hf _ _ _)
    (fun nm L => srcHeaderStr_ne _ hf nm L)
    (failedHeaderStr_ne _ hf _)
    (noMatchContent_ne _)
  exact hne b hb

def exC6wReport : ReportData :=
  { stats := [{ word := S "w", count := 1, titles := [exItem] }],
    new_titles := [], failed_ids := [], total_new_count := 0 }

def exC6w : SplitArgs :=
  { report_data := exC6wReport, format_type := S "telegram", fmtTitle := exFmtTitle }

theorem claim_C6_witness :
    FiveFormats exC6w.format_type ∧
      ((split_content_into_batches exC6w).headD [] ∈ split_content_into_batches exC6w) ∧
      (split_content_into_batches exC6w).headD [] ≠
        (splitAux exC6w).1.baseHeader ++ (splitAux exC6w).1.footer :=
  ⟨by decide, by decide,
   claim_C6 exC6w (by decide) ((split_content_into_batches exC6w).headD []) (by decide)⟩

/-- C7: Separator trial-append without forced flush — between consecutive
word-groups the splitter runs `sepTrial`: the separator is committed exactly
when the batch plus separator plus footer fits strictly within the budget;
otherwise it is dropped with the state unchanged; in neither case is a batch
flushed or a fresh batch started, and `statsGroupStep` applies this step
exactly when the group is not the last one. -/
theorem claim_C7 (c : Ctx) (s : SplitState) :
    (sepTrial c s).batches = s.batches ∧
    (sepTrial c s).hasContent = s.hasContent ∧
    (utf8Len (joinR c (s.current ++ [Chunk.sep])) + utf8Len c.footer < c.maxBytes →
      (sepTrial c s).current = s.current ++ [Chunk.sep]) ∧
    (¬ (utf8Len (joinR c (s.current ++ [Chunk.sep])) + utf8Len c.footer < c.maxBytes) →
      (sepTrial c s).current = s.current) ∧
    (∀ (total i : Nat) (g : StatGroup), i < total - 1 →
      statsGroupStep c total (i, g) s =
        sepTrial c (statsInnerGo c total i g.titles.length g
          ((g.titles.drop 1).enumFrom 1)
          (trialStep c [Chunk.statsHead] (statUnit i total g.titles.length g) s))) := by
  refine ⟨?_, ?_, ?_, ?_, ?_⟩
  · unfold sepTrial; split <;> rfl
  · unfold sepTrial; split <;> rfl
  · intro h; unfold sepTrial; rw [if_pos h]
  · intro h; unfold sepTrial; rw [if_neg h]
  · intro total i g hlt
    show (if i < total - 1 then _ else _) = _
    rw [if_pos hlt]

def exC7ctx : Ctx :=
  { format_type := S "telegram", fmtTitle := exFmtTitle, maxBytes := 100,
    baseHeader := [], footer := [], statsHeader := [], newHeader := [],
    failedHeader := [], sepStr := S "--", noMatchStr := [] }

def exC7state : SplitState :=
  { current := [Chunk.base], hasContent := true, ok := true, batches := [] }

theorem claim_C7_witness :
    (sepTrial exC7ctx exC7state).current = exC7state.current ++ [Chunk.sep] :=
  (claim_C7 exC7ctx exC7state).2.2.1 (by decide)

/-- C8: Default budget resolution — with `max_bytes = None` and no overrides
the effective budget is 20000 for dingtalk, 29000 for feishu, 3800 for ntfy
and 4000 for every other format; a `batch_sizes` mapping merged over the
defaults overrides the budget of the key that format resolves to (its own
name for the three named platforms, the "default" key for all others); and
the splitter's context uses exactly this resolution. -/
theorem claim_C8 :
    (∀ f : Str, resolveMaxBytes f none none =
      (if f = S "dingtalk" then 20000 else if f = S "feishu" then 29000
       else if f = S "ntfy" then 3800 else 4000)) ∧
    (∀ (f : Str) (o : List (Str × Nat)) (v : Nat),
      o.lookup (if f = S "dingtalk" ∨ f = S "feishu" ∨ f = S "ntfy" then f
                else S "default") = some v →
      resolveMaxBytes f none (some o) = v) ∧
    (∀ a : SplitArgs, (splitAux a).1.maxBytes =
      resolveMaxBytes a.format_type a.max_bytes a.batch_sizes) := by
  refine ⟨?_, ?_, fun a => rfl⟩
  · intro f
    simp only [resolveMaxBytes]
    split_ifs <;> decide
  · intro f o v hl
    simp only [resolveMaxBytes, Option.getD_some]
    by_cases h1 : f = S "dingtalk"
    · rw [if_pos (Or.inl h1), h1] at hl
      rw [if_pos h1, hl]
    · by_cases h2 : f = S "feishu"
      · rw [if_pos (Or.inr (Or.inl h2)), h2] at hl
        rw [if_neg h1, if_pos h2, hl]
      · by_cases h3 : f = S "ntfy"
        · rw [if_pos (Or.inr (Or.inr h3)), h3] at hl
          rw [if_neg h1, if_neg h2, if_pos h3, hl]
        · rw [if_neg (by simp [h1, h2, h3])] at hl
          rw [if_neg h1, if_neg h2, if_neg h3, hl]

theorem claim_C8_witness :
    resolveMaxBytes (S "feishu") none none = 29000 ∧
      resolveMaxBytes (S "wework") none (some [(S "default", 123)]) = 123 :=
  ⟨(claim_C8.1 (S "feishu")).trans (by decide),
   claim_C8.2.1 (S "wework") [(S "default", 123)] 123 (by decide)⟩

/-- C9: Input immutability — the only writes this subsystem performs on title
records are through the defensive per-item copy (`.copy()` then
`is_new = False` on the copy) in the new-items sections of the splitter and
both renderers.  In the heap model of that code path: all input cells are
unchanged after processing a group (two successive invocations observe
identical input), and the produced lines are exactly the pure
`newNewsLine` lines over the untouched input items (the flag reset lands
only on the fresh copies). -/
theorem claim_C9 (ft : Str → TitleItem → Bool → Str) (fmt : Str)
    (jrs : List (Nat × Nat)) (h : ItemHeap) :
    (∀ i < h.length, heapGet (newGroupLinesHeap ft fmt jrs h).2 i = heapGet h i) ∧
    ((∀ jr ∈ jrs, (jr : Nat × Nat).2 < h.length) →
      (newGroupLinesHeap ft fmt jrs h).1 =
        jrs.map (fun jr => newNewsLine ft fmt jr.1 (heapGet h jr.2))) :=
  ⟨(newGroupLinesHeap_frame ft fmt jrs h).1, newGroupLinesHeap_lines ft fmt jrs h⟩

theorem claim_C9_witness :
    heapGet (newGroupLinesHeap exFmtTitle (S "feishu") [(0, 0)] [exItem]).2 0 =
      heapGet [exItem] 0 ∧
    (newGroupLinesHeap exFmtTitle (S "feishu") [(0, 0)] [exItem]).1 =
      [(0, 0)].map (fun jr =>
        newNewsLine exFmtTitle (S "feishu") jr.1 (heapGet [exItem] jr.2)) :=
  ⟨(claim_C9 exFmtTitle (S "feishu") [(0, 0)] [exItem]).1 0 (by decide),
   (claim_C9 exFmtTitle (S "feishu") [(0, 0)] [exItem]).2 (by decide)⟩

/-- C10: Formatter bypass in the splitter's new-items section — for `ntfy`,
every emitted new-items line is the raw `"  {n}. {title}\n"` built without
the title formatter (for every formatter), even though the `ntfy` statistics
lines do call the formatter with platform `ntfy`; for `bark`, a group's first
new-items line is formatted via the `wework` formatter while every subsequent
line bypasses the formatter. -/
theorem claim_C10 (a : SplitArgs) :
    (a.format_type = S "ntfy" →
      (∀ b ∈ (splitAux a).2, ∀ (i j : Nat) (it : TitleItem),
        Chunk.newItem i j it ∈ b.1 →
        renderChunk (splitAux a).1 (Chunk.newItem i j it) =
          S "  " ++ natStr (j + 1) ++ S ". " ++ it.title ++ S "\n") ∧
      (∀ (i j L : Nat) (it : TitleItem),
        renderChunk (splitAux a).1 (Chunk.statItem i j L it) =
          S "  " ++ natStr (j + 1) ++ S ". " ++ a.fmtTitle (S "ntfy") it true ++ S "\n" ++
            (if j + 1 < L then S "\n" else []))) ∧
    (a.format_type = S "bark" →
      ∀ b ∈ (splitAux a).2, ∀ (i j : Nat) (it : TitleItem),
        Chunk.newItem i j it ∈ b.1 →
        renderChunk (splitAux a).1 (Chunk.newItem i j it) =
          S "  " ++ natStr (j + 1) ++ S ". " ++
            (if j = 0 then a.fmtTitle (S "wework") { it with is_new := false } false
             else it.title) ++ S "\n") := by
  refine ⟨fun hfmt => ⟨?_, ?_⟩, fun hfmt => ?_⟩
  · intro b _ i j it _
    show newNewsLine a.fmtTitle a.format_type j it = _
    rw [hfmt]
    unfold newNewsLine
    by_cases hj : j = 0
    · rw [if_pos hj, (by decide : newFirstPlatform (S "ntfy") = none)]
    · rw [if_neg hj, (by decide : newRestPlatform (S "ntfy") = none)]
  · intro i j L it
    show statNewsLine a.fmtTitle a.format_type j L it = _
    rw [hfmt]
    unfold statNewsLine
    rw [(by decide : statPlatform (S "ntfy") = some (S "ntfy"))]
  · intro b _ i j it _
    show newNewsLine a.fmtTitle a.format_type j it = _
    rw [hfmt]
    unfold newNewsLine
    by_cases hj : j = 0
    · simp only [if_pos hj, (by decide : newFirstPlatform (S "bark") = some (S "wework"))]
    · simp only [if_neg hj, (by decide : newRestPlatform (S "bark") = none)]

def exC10report : ReportData :=
  { stats := [], new_titles := [{ source_name := S "zh", titles := [exItem] }],
    failed_ids := [], total_new_count := 1 }

def exC10 : SplitArgs :=
  { report_data := exC10report, format_type := S "ntfy", fmtTitle := exFmtTitle }

theorem claim_C10_witness :
    renderChunk (splitAux exC10).1 (Chunk.newItem 0 0 exItem) =
      S "  " ++ natStr (0 + 1) ++ S ". " ++ exItem.title ++ S "\n" :=
  ((claim_C10 exC10).1 rfl).1 (((splitAux exC10).2).headD ([], false)) (by decide)
    0 0 exItem (by decide)
